import Mathlib

/-!
Verification development for the shared-things sync system.

Server half: shallow embedding of `packages/server/src/routes.ts`
(`registerRoutes` push handler, `shouldApplyChange`, `compareIso`, `toTodo`)
over a relational store of todos and tombstones.  The store primitives the
routes call (`getTodoByServerId`, `upsertTodo`, `deleteTodoByServerId`,
`getDeletedByServerId`, `recordDeletion`, `clearDeletion`) live in a db
module that is not part of the sources at hand; they are modelled from the
specification (data model of todos and tombstones, "at most one tombstone
per serverId", "accepting an edit clears any tombstone").

Timestamps: all ISO-8601 strings are compared by instant
(`new Date(a).getTime() - new Date(b).getTime()`); the embedding works at
the instant level and represents a timestamp as the parsed integer number
of milliseconds, so `compareIso` is integer subtraction.

User identifiers are compared with the JavaScript `>` on strings
(code-unit lexicographic); for the identifier alphabet in use this is the
lexicographic order on characters, embedded as Lean's `String` order.
-/

/-- A JavaScript number: either a finite value or one of the non-finite
values (`NaN`, `Infinity`, `-Infinity`).  Finite values are represented as
integers, which covers every value the program stores (timestamps in
milliseconds and integer positions). -/
inductive JsNumber where
  | finite (x : Int)
  | nan
  | posInf
  | negInf
deriving DecidableEq, Repr

namespace JsNumber

/-- JS `Number.isFinite`. -/
def isFinite : JsNumber → Bool
  | .finite _ => true
  | _ => false

end JsNumber

/-- First-match lookup in an association list (a keyed table / JS object
whose keys are unique). -/
def lookupA {α : Type} (m : List (String × α)) (k : String) : Option α :=
  (m.find? (fun p => p.1 = k)).map (fun p => p.2)

/-- Insert-or-overwrite in an association list, keeping the position of an
existing key (JS object assignment / SQL upsert keyed by primary key). -/
def setA {α : Type} (m : List (String × α)) (k : String) (v : α) : List (String × α) :=
  if m.any (fun p => p.1 = k) then
    m.map (fun p => if p.1 = k then (k, v) else p)
  else
    m ++ [(k, v)]

/-- Remove a key from an association list (JS `delete` / SQL delete by
primary key). -/
def eraseA {α : Type} (m : List (String × α)) (k : String) : List (String × α) :=
  m.filter (fun p => ¬ p.1 = k)

/-- The keys of the association list are pairwise distinct. -/
def keysUnique {α : Type} (m : List (String × α)) : Prop :=
  m.Pairwise (fun p q => p.1 ≠ q.1)

instance {α : Type} (m : List (String × α)) : Decidable (keysUnique m) := by
  unfold keysUnique
  exact List.instDecidablePairwise m

namespace Server

/-- Function `compareIso` from routes.ts: compare two ISO timestamps by instant.
At the instant level this is subtraction. -/
def compareIso (a b : Int) : Int := a - b

/-- Function `shouldApplyChange` from routes.ts. -/
def shouldApplyChange (incomingEditedAt storedEditedAt : Int)
    (incomingUserId storedUserId : String) : Bool :=
  let diff := compareIso incomingEditedAt storedEditedAt
  if diff > 0 then true
  else if diff < 0 then false
  else storedUserId < incomingUserId

/-- Todo status. -/
inductive TodoStatus where
  | «open»
  | completed
  | canceled
deriving DecidableEq, Repr

/-- A stored row of the todos table (the fields the push handler reads and
writes). -/
structure StoredTodo where
  title : String
  notes : String
  dueDate : Option String
  tags : List String
  status : TodoStatus
  position : JsNumber
  editedAt : Int
  updatedAt : Int
  updatedBy : String
deriving DecidableEq, Repr

/-- A stored row of the tombstones table. -/
structure Tombstone where
  deletedAt : Int
  recordedAt : Int
  deletedBy : String
deriving DecidableEq, Repr

/-- The server store: todos and tombstones, both keyed by server id. -/
structure ServerState where
  todos : List (String × StoredTodo)
  tombstones : List (String × Tombstone)
deriving DecidableEq, Repr

/-- Modelled from the spec: `getTodoByServerId` of the server db module
(missing from the sources; routes.ts is its caller): look up the todo row
with the given server id. -/
def getTodoByServerId (st : ServerState) (serverId : String) : Option StoredTodo :=
  lookupA st.todos serverId

/-- Modelled from the spec: `getDeletedByServerId` of the server db module:
look up the tombstone with the given server id (at most one is retained). -/
def getDeletedByServerId (st : ServerState) (serverId : String) : Option Tombstone :=
  lookupA st.tombstones serverId

/-- The fields routes.ts passes to `upsertTodo`. -/
structure UpsertFields where
  title : String
  notes : String
  dueDate : Option String
  tags : List String
  status : TodoStatus
  position : JsNumber
  editedAt : Int
deriving DecidableEq, Repr

/-- Modelled from the spec: `upsertTodo` of the server db module: insert or
overwrite the todo row, setting `updatedBy` to the acting user and
`updatedAt` to server-now. -/
def upsertTodo (st : ServerState) (serverId : String) (data : UpsertFields)
    (userId : String) (now : Int) : ServerState :=
  let row : StoredTodo :=
    { title := data.title, notes := data.notes, dueDate := data.dueDate,
      tags := data.tags, status := data.status, position := data.position,
      editedAt := data.editedAt, updatedAt := now, updatedBy := userId }
  { st with todos := setA st.todos serverId row }

/-- Modelled from the spec: `deleteTodoByServerId` of the server db module:
remove the todo row with the given server id. -/
def deleteTodoByServerId (st : ServerState) (serverId : String) : ServerState :=
  { st with todos := eraseA st.todos serverId }

/-- Modelled from the spec: `recordDeletion` of the server db module:
persist/overwrite the tombstone for the server id with the client deletion
timestamp, the acting user and `recordedAt` = server-now (at most one
tombstone per server id is retained). -/
def recordDeletion (st : ServerState) (serverId : String) (deletedAt : Int)
    (userId : String) (now : Int) : ServerState :=
  let row : Tombstone :=
    { deletedAt := deletedAt, recordedAt := now, deletedBy := userId }
  { st with tombstones := setA st.tombstones serverId row }

/-- Modelled from the spec: `clearDeletion` of the server db module: remove
the tombstone for the server id. -/
def clearDeletion (st : ServerState) (serverId : String) : ServerState :=
  { st with tombstones := eraseA st.tombstones serverId }

/-- The wire shape of a todo, as returned inside conflicts (`toTodo`). -/
structure Todo where
  id : String
  title : String
  notes : String
  dueDate : Option String
  tags : List String
  status : TodoStatus
  position : JsNumber
  editedAt : Int
  updatedAt : Int
deriving DecidableEq, Repr

/-- Function `toTodo` from routes.ts: project a stored row to the wire shape. -/
def toTodo (id : String) (todo : StoredTodo) : Todo :=
  { id := id, title := todo.title, notes := todo.notes, dueDate := todo.dueDate,
    tags := todo.tags, status := todo.status, position := todo.position,
    editedAt := todo.editedAt, updatedAt := todo.updatedAt }

/-- The `position` field of an incoming upsert, before validation: it may
be absent, present but not a number, or a number (possibly non-finite). -/
inductive PosField where
  | missing
  | notNumber
  | num (n : JsNumber)
deriving DecidableEq, Repr

/-- The position guard of the push handler:
`typeof todo.position === "number" && Number.isFinite(todo.position)
  ? todo.position : 0`. -/
def normalizePosition : PosField → JsNumber
  | .num (.finite x) => .finite x
  | _ => .finite 0

/-- An incoming upsert of a push request.  `serverId`/`clientId` model the
optional string fields (`none` = absent); JS truthiness on them is
`isSome` together with non-emptiness. -/
structure PushTodo where
  serverId : Option String
  clientId : Option String
  title : String
  notes : String
  dueDate : Option String
  tags : List String
  status : TodoStatus
  position : PosField
  editedAt : Int
deriving DecidableEq, Repr

/-- JS truthiness of an optional string field. -/
def strTruthy : Option String → Bool
  | some s => s ≠ ""
  | none => false

/-- Expression `todo.serverId || crypto.randomUUID()`: the provided id when truthy,
otherwise the freshly generated one. -/
def strOr (v : Option String) (fresh : String) : String :=
  match v with
  | some s => if s = "" then fresh else s
  | none => fresh

/-- An incoming deletion of a push request. -/
structure Deletion where
  serverId : String
  deletedAt : Int
deriving DecidableEq, Repr

/-- A conflict record of the push response. -/
structure Conflict where
  serverId : String
  reason : String
  serverTodo : Option Todo
  clientTodo : Option PushTodo
  clientDeletedAt : Option Int
deriving DecidableEq, Repr

/-- A `(serverId, clientId)` mapping of the push response. -/
structure Mapping where
  serverId : String
  clientId : String
deriving DecidableEq, Repr

/-- A push request body (the `todos` field). -/
structure PushRequest where
  upserted : List PushTodo
  deleted : List Deletion
deriving DecidableEq, Repr

/-- The deletions loop of the push handler, one iteration: returns the new
store and the conflict pushed, if any. -/
def processDeletion (userId : String) (now : Int) (st : ServerState)
    (deletion : Deletion) : ServerState × Option Conflict :=
  match getTodoByServerId st deletion.serverId with
  | none =>
    match getDeletedByServerId st deletion.serverId with
    | none =>
      (recordDeletion st deletion.serverId deletion.deletedAt userId now, none)
    | some existingDeletion =>
      if compareIso deletion.deletedAt existingDeletion.deletedAt > 0 then
        (recordDeletion st deletion.serverId deletion.deletedAt userId now, none)
      else
        (st, none)
  | some existing =>
    let shouldDelete := shouldApplyChange deletion.deletedAt existing.editedAt
      userId existing.updatedBy
    if ¬ shouldDelete then
      (st, some { serverId := deletion.serverId, reason := "Remote edit was newer",
                  serverTodo := some (toTodo deletion.serverId existing),
                  clientTodo := none, clientDeletedAt := some deletion.deletedAt })
    else
      (recordDeletion (deleteTodoByServerId st deletion.serverId)
        deletion.serverId deletion.deletedAt userId now, none)

/-- The upserts loop of the push handler, one iteration: returns the new
store, the conflict pushed (if any) and the mapping pushed (if any).
`freshId` is the id `crypto.randomUUID()` would produce for this
iteration. -/
def processUpsert (userId : String) (now : Int) (st : ServerState)
    (todo : PushTodo) (freshId : String) : ServerState × Option Conflict × Option Mapping :=
  let serverId := strOr todo.serverId freshId
  let position := normalizePosition todo.position
  let afterTombstone : Option ServerState :=
    match getDeletedByServerId st serverId with
    | some existingDeletion =>
      if compareIso todo.editedAt existingDeletion.deletedAt > 0 then
        some (clearDeletion st serverId)
      else
        none
    | none => some st
  match afterTombstone with
  | none =>
    (st, some { serverId := serverId, reason := "Remote delete was newer",
                serverTodo := none, clientTodo := some todo,
                clientDeletedAt := none }, none)
  | some st1 =>
    match getTodoByServerId st1 serverId with
    | some existing =>
      if shouldApplyChange todo.editedAt existing.editedAt userId existing.updatedBy then
        (upsertTodo st1 serverId
          { title := todo.title, notes := todo.notes, dueDate := todo.dueDate,
            tags := todo.tags, status := todo.status, position := position,
            editedAt := todo.editedAt } userId now,
         none,
         if ¬ strTruthy todo.serverId ∧ strTruthy todo.clientId then
           some { serverId := serverId, clientId := todo.clientId.getD "" }
         else none)
      else
        (st1, some { serverId := serverId, reason := "Remote edit was newer",
                     serverTodo := some (toTodo serverId existing),
                     clientTodo := some todo, clientDeletedAt := none }, none)
    | none =>
      (upsertTodo st1 serverId
        { title := todo.title, notes := todo.notes, dueDate := todo.dueDate,
          tags := todo.tags, status := todo.status, position := position,
          editedAt := todo.editedAt } userId now,
       none,
       if ¬ strTruthy todo.serverId ∧ strTruthy todo.clientId then
         some { serverId := serverId, clientId := todo.clientId.getD "" }
       else none)

/-- Fold the deletions loop over a list. -/
def processDeletions (userId : String) (now : Int) :
    ServerState → List Deletion → ServerState × List Conflict
  | st, [] => (st, [])
  | st, d :: rest =>
    let (st1, c) := processDeletion userId now st d
    let (st2, cs) := processDeletions userId now st1 rest
    (st2, c.toList ++ cs)

/-- Fold the upserts loop over a list; `freshIds i` is the id
`crypto.randomUUID()` would produce at iteration `i`. -/
def processUpserts (userId : String) (now : Int) (freshIds : Nat → String) :
    Nat → ServerState → List PushTodo → ServerState × List Conflict × List Mapping
  | _, st, [] => (st, [], [])
  | i, st, t :: rest =>
    let (st1, c, m) := processUpsert userId now st t (freshIds i)
    let (st2, cs, ms) := processUpserts userId now freshIds (i + 1) st1 rest
    (st2, c.toList ++ cs, m.toList ++ ms)

/-- The whole push transaction: deletions first, then upserts, collecting
conflicts and mappings in order. -/
def processPush (userId : String) (now : Int) (freshIds : Nat → String)
    (st : ServerState) (req : PushRequest) : ServerState × List Conflict × List Mapping :=
  let (st1, dcs) := processDeletions userId now st req.deleted
  let (st2, ucs, ms) := processUpserts userId now freshIds 0 st1 req.upserted
  (st2, dcs ++ ucs, ms)

/-- Invariant I3 of the spec: a todo and a tombstone with the same server
id never coexist. -/
def Disjoint (st : ServerState) : Prop :=
  ∀ sid : String, (getTodoByServerId st sid).isSome →
    (getDeletedByServerId st sid).isNone

/-- Every stored position is a finite number. -/
def allPositionsFinite (st : ServerState) : Prop :=
  ∀ p ∈ st.todos, p.2.position.isFinite = true

end Server

namespace Client

/-!
Client half: shallow embedding of `packages/daemon/src/sync.ts` (v2).
Timestamps are again embedded at the instant level as integers.
External effects are injected: the Things readout, the HTTP results and
the per-item outcomes of host-app mutations are parameters of the cycle
function, and the state written by `saveLocalState` is returned
explicitly (the function is called both at the end of a successful cycle
and in the catch handler).
-/

/-- Function `compareIso` from sync.ts (same instant-level embedding as the
server's). -/
def compareIso (a b : Int) : Int := a - b

/-- A todo as read from the Things host app (`ThingsTodo`, the fields the
sync engine uses). -/
structure ThingsTodo where
  thingsId : String
  title : String
  notes : String
  dueDate : Option String
  tags : List String
  status : Server.TodoStatus
deriving DecidableEq, Repr

/-- A snapshot record (`LocalTodoState`). -/
structure LocalTodoState where
  thingsId : String
  title : String
  notes : String
  dueDate : Option String
  tags : List String
  status : Server.TodoStatus
  position : Int
  editedAt : Int
deriving DecidableEq, Repr

/-- Pending changes (`DirtyState`): local ids to upsert and a map from
server id to deletion timestamp. -/
structure DirtyState where
  upserted : List String
  deleted : List (String × Int)
deriving DecidableEq, Repr

/-- The device snapshot (`LocalState`). -/
structure LocalState where
  lastSyncedAt : Int
  todos : List (String × LocalTodoState)
  serverIdToThingsId : List (String × String)
  dirty : DirtyState
deriving DecidableEq, Repr

/-- A todo of a pulled delta (server wire shape, fields the client uses). -/
structure Todo where
  id : String
  title : String
  notes : String
  dueDate : Option String
  tags : List String
  status : Server.TodoStatus
  position : Int
  editedAt : Int
deriving DecidableEq, Repr

/-- A tombstone of a pulled delta. -/
structure RemoteDeletion where
  serverId : String
  deletedAt : Int
deriving DecidableEq, Repr

/-- A pulled delta (`/delta` response, todos part). -/
structure Delta where
  upserted : List Todo
  deleted : List RemoteDeletion
  syncedAt : Int
deriving DecidableEq, Repr

/-- A conflict of a push response, as the client reads it. -/
structure PushConflict where
  serverId : String
  reason : String
  serverTodo : Option Todo
  clientTodo : Option Todo
  clientDeletedAt : Option Int
deriving DecidableEq, Repr

/-- A mapping of a push response. -/
structure PushMapping where
  serverId : String
  clientId : Option String
deriving DecidableEq, Repr

/-- A push response, the parts the client reads. -/
structure PushResponse where
  conflicts : List PushConflict
  mappings : Option (List PushMapping)
deriving DecidableEq, Repr

/-- One entry of the conflict log (`ConflictEntry`). -/
structure VersionInfo where
  title : Option String
  editedAt : Option Int
  deletedAt : Option Int
deriving DecidableEq, Repr

structure ConflictEntry where
  timestamp : Int
  serverId : String
  title : String
  yourVersion : VersionInfo
  winningVersion : VersionInfo
  reason : String
deriving DecidableEq, Repr

/-- JS `Map.set`: overwrite in place if the key exists, else append. -/
def jsMapSet {α : Type} (m : List (String × α)) (k : String) (v : α) : List (String × α) :=
  setA m k v

/-- Build a JS `Map` from a list of entries (later duplicates overwrite,
keeping the first position). -/
def jsMapOfList {α : Type} (l : List (String × α)) : List (String × α) :=
  l.foldl (fun m p => jsMapSet m p.1 p.2) []

/-- JS `Set.add` on an insertion-ordered string set. -/
def setAdd (l : List String) (x : String) : List String :=
  if x ∈ l then l else l ++ [x]

/-- JS `new Set(array)`. -/
def setOfList (l : List String) : List String :=
  l.foldl setAdd []

/-- Function `hasChanged` from sync.ts.  The source compares tag lists by
`JSON.stringify(prev.tags) !== JSON.stringify(curr.tags)`;
`JSON.stringify` is injective and deterministic on arrays of strings, so
string equality of the encodings is list equality, which is how it is
embedded.  Note this comparison is order-sensitive. -/
def hasChanged (prev : LocalTodoState) (curr : ThingsTodo) (position : Int) : Bool :=
  prev.title ≠ curr.title ∨
  prev.notes ≠ curr.notes ∨
  prev.dueDate ≠ curr.dueDate ∨
  prev.status ≠ curr.status ∨
  prev.position ≠ position ∨
  prev.tags ≠ curr.tags

/-- One iteration of the first change-detection loop of `runSync` (over
`currentTodosMap`): takes and returns the snapshot and the
`dirtyUpserted` set. -/
def detectOne (now : Int) (positionMap : List (String × Int))
    (acc : LocalState × List String) (entry : String × ThingsTodo) :
    LocalState × List String :=
  let s := acc.1
  let dirtyUpserted := acc.2
  let thingsId := entry.1
  let todo := entry.2
  let prev := lookupA s.todos thingsId
  let position := (lookupA positionMap thingsId).getD 0
  match prev with
  | none =>
    let row0 : LocalTodoState :=
      { thingsId := thingsId, title := todo.title, notes := todo.notes,
        dueDate := todo.dueDate, tags := todo.tags, status := todo.status,
        position := position, editedAt := now }
    ({ s with todos := setA s.todos thingsId row0 }, setAdd dirtyUpserted thingsId)
  | some prev =>
    if hasChanged prev todo position then
      let row1 : LocalTodoState :=
        { prev with
          title := todo.title
          notes := todo.notes
          dueDate := todo.dueDate
          tags := todo.tags
          status := todo.status
          position := position
          editedAt := now }
      ({ s with todos := setA s.todos thingsId row1 }, setAdd dirtyUpserted thingsId)
    else
      (s, dirtyUpserted)

/-- One iteration of the second change-detection loop (over the snapshot
keys): record a pending deletion for vanished items and drop them from the
snapshot. -/
def detectGoneOne (now : Int) (currentTodosMap : List (String × ThingsTodo))
    (s : LocalState) (thingsId : String) : LocalState :=
  if (lookupA currentTodosMap thingsId).isSome then s
  else
    let serverId := (s.serverIdToThingsId.find? (fun p => p.2 = thingsId)).map (fun p => p.1)
    let s1 :=
      match serverId with
      | some sid =>
        if sid = "" then s
        else if (lookupA s.dirty.deleted sid).isSome then s
        else { s with dirty := { s.dirty with deleted := setA s.dirty.deleted sid now } }
      | none => s
    { s1 with todos := eraseA s1.todos thingsId }

/-- Change detection (step 2 of `runSync`): both loops plus the final
rebuild and filter of `dirty.upserted`. -/
def detectChanges (now : Int) (currentTodos : List ThingsTodo) (s : LocalState) : LocalState :=
  let positionMap : List (String × Int) :=
    jsMapOfList (currentTodos.enum.map (fun p => (p.2.thingsId, (p.1 : Int))))
  let currentTodosMap : List (String × ThingsTodo) :=
    jsMapOfList (currentTodos.map (fun t => (t.thingsId, t)))
  let dirtyUpserted := setOfList s.dirty.upserted
  let (s1, dirtyUpserted1) :=
    currentTodosMap.foldl (detectOne now positionMap) (s, dirtyUpserted)
  let s2 := (s1.todos.map (fun p => p.1)).foldl (detectGoneOne now currentTodosMap) s1
  { s2 with dirty := { s2.dirty with
      upserted := dirtyUpserted1.filter (fun id => (lookupA currentTodosMap id).isSome) } }

/-- An upsert of the push payload (`buildUpserts` element shape). -/
structure ClientPushTodo where
  serverId : Option String
  clientId : Option String
  title : String
  notes : String
  dueDate : Option String
  tags : List String
  status : Server.TodoStatus
  position : Int
  editedAt : Int
deriving DecidableEq, Repr

/-- Function `invertMapping` from sync.ts: thingsId to serverId (later entries
overwrite). -/
def invertMapping (mapping : List (String × String)) : List (String × String) :=
  mapping.foldl (fun m p => jsMapSet m p.2 p.1) []

/-- Function `buildUpserts` from sync.ts. -/
def buildUpserts (currentTodosMap : List (String × ThingsTodo)) (s : LocalState) :
    List ClientPushTodo :=
  let thingsIdToServerId := invertMapping s.serverIdToThingsId
  s.dirty.upserted.foldr
    (fun thingsId acc =>
      match lookupA currentTodosMap thingsId, lookupA s.todos thingsId with
      | some _, some stored =>
        { serverId := lookupA thingsIdToServerId thingsId,
          clientId := some thingsId,
          title := stored.title, notes := stored.notes, dueDate := stored.dueDate,
          tags := stored.tags, status := stored.status, position := stored.position,
          editedAt := stored.editedAt } :: acc
      | _, _ => acc)
    []

/-- Function `buildDeletes` from sync.ts: returns the deletions of the payload and
the state with reappeared pending deletions withdrawn. -/
def buildDeletes (currentTodosMap : List (String × ThingsTodo)) (s : LocalState) :
    LocalState × List (String × Int) :=
  s.dirty.deleted.foldl
    (fun acc entry =>
      let (s, deletes) := acc
      let serverId := entry.1
      let deletedAt := entry.2
      match lookupA s.serverIdToThingsId serverId with
      | some thingsId =>
        if thingsId ≠ "" ∧ (lookupA currentTodosMap thingsId).isSome then
          ({ s with dirty := { s.dirty with deleted := eraseA s.dirty.deleted serverId } },
           deletes)
        else
          (s, deletes ++ [(serverId, deletedAt)])
      | none => (s, deletes ++ [(serverId, deletedAt)]))
    (s, [])

/-- Function `setMapping` from sync.ts: bind a `(serverId, thingsId)` pair, failing
on a duplicate-mapping violation (the state is unchanged on failure, the
assignment being the last step). -/
def setMapping (s : LocalState) (serverId thingsId : String) :
    Except String LocalState :=
  let existing := lookupA s.serverIdToThingsId serverId
  let firstBad : Bool :=
    match existing with
    | some ex => ex ≠ "" && ex ≠ thingsId && (lookupA s.todos ex).isSome
    | none => false
  if firstBad then
    .error "Duplicate mapping detected for serverId"
  else if s.serverIdToThingsId.any (fun p => p.2 = thingsId ∧ p.1 ≠ serverId) then
    .error "Duplicate mapping detected for thingsId"
  else
    .ok { s with serverIdToThingsId := setA s.serverIdToThingsId serverId thingsId }

/-- Function `processPushMappings` from sync.ts: bind every returned mapping with a
truthy `clientId`; on failure the state reached so far is kept (the
exception escapes to the catch handler of `runSync`). -/
def processPushMappings (s : LocalState) (resp : PushResponse) :
    LocalState × Option String :=
  match resp.mappings with
  | none => (s, none)
  | some mappings =>
    mappings.foldl
      (fun acc m =>
        match acc with
        | (s, some e) => (s, some e)
        | (s, none) =>
          if ¬ Server.strTruthy m.clientId then (s, none)
          else
            match setMapping s m.serverId (m.clientId.getD "") with
            | .ok s1 => (s1, none)
            | .error e => (s, some e))
      (s, none)

/-- Function `conflictsFromPush` from sync.ts. -/
def conflictsFromPush (now : Int) (resp : PushResponse) : List ConflictEntry :=
  resp.conflicts.map (fun conflict =>
    { timestamp := now,
      serverId := conflict.serverId,
      title :=
        match conflict.clientTodo with
        | some t => if t.title ≠ "" then t.title else
            (match conflict.serverTodo with
             | some st => if st.title ≠ "" then st.title else "Unknown"
             | none => "Unknown")
        | none =>
          match conflict.serverTodo with
          | some st => if st.title ≠ "" then st.title else "Unknown"
          | none => "Unknown",
      yourVersion :=
        match conflict.clientTodo with
        | some t => { title := some t.title, editedAt := some t.editedAt, deletedAt := none }
        | none =>
          match conflict.clientDeletedAt with
          | some d => { title := none, editedAt := none, deletedAt := some d }
          | none => { title := none, editedAt := none, deletedAt := none },
      winningVersion :=
        match conflict.serverTodo with
        | some st => { title := some st.title, editedAt := some st.editedAt, deletedAt := none }
        | none =>
          match conflict.clientDeletedAt with
          | some d => { title := none, editedAt := none, deletedAt := some d }
          | none => { title := none, editedAt := none, deletedAt := none },
      reason := conflict.reason })

end Client

namespace Client

/-- The outcome of the host-app calls of one iteration of the upsert loop
of `applyRemoteChanges`: `.error` models a thrown host-app call
(`createTodo` or `updateTodo`); `.ok found` models the create path
completing with `findNewTodo` returning `found`. -/
def HostStep : Type := Except Unit (Option ThingsTodo)

/-- Errors that escape to the catch handler of `runSync`. -/
inductive SyncErr where
  | hostRead
  | push
  | dupMapping
  | pull
  | applyHost
deriving DecidableEq, Repr

/-- The upserts loop of `applyRemoteChanges`.  `steps i` injects the
host-app outcome of iteration `i`.  Returns the snapshot state, the
(mutated) current-todos map, the number of applied items, and the error
that escaped, if any; on an error the mutations of the earlier iterations
are retained, as in the source (the state object is mutated in place). -/
def applyRemoteUpserts (steps : Nat → HostStep) :
    Nat → LocalState → List (String × ThingsTodo) → Nat → List Todo →
    LocalState × List (String × ThingsTodo) × Nat × Option SyncErr
  | _, s, curr, applied, [] => (s, curr, applied, none)
  | i, s, curr, applied, remote :: rest =>
    let localThingsId := lookupA s.serverIdToThingsId remote.id
    let localTodo : Option ThingsTodo :=
      match localThingsId with
      | some tid => if tid = "" then none else lookupA curr tid
      | none => none
    let localStateTodo : Option LocalTodoState :=
      match localThingsId with
      | some tid => if tid = "" then none else lookupA s.todos tid
      | none => none
    match localTodo with
    | none =>
      -- create path: createTodo, then findNewTodo, then bind and record
      match steps i with
      | .error _ => (s, curr, applied, some .applyHost)
      | .ok found =>
        match found with
        | some newTodo =>
          match setMapping s remote.id newTodo.thingsId with
          | .error _ => (s, curr, applied, some .dupMapping)
          | .ok s1 =>
            let row : LocalTodoState :=
              { thingsId := newTodo.thingsId, title := remote.title,
                notes := remote.notes, dueDate := remote.dueDate,
                tags := remote.tags, status := remote.status,
                position := remote.position, editedAt := remote.editedAt }
            let s2 := { s1 with todos := setA s1.todos newTodo.thingsId row }
            let curr1 := jsMapSet curr newTodo.thingsId newTodo
            applyRemoteUpserts steps (i + 1) s2 curr1 (applied + 1) rest
        | none =>
          applyRemoteUpserts steps (i + 1) s curr (applied + 1) rest
    | some localTodo =>
      -- update path
      let apply :=
        match localStateTodo with
        | none => true
        | some lst => compareIso remote.editedAt lst.editedAt ≥ 0
      if apply then
        match steps i with
        | .error _ => (s, curr, applied, some .applyHost)
        | .ok _ =>
          let row : LocalTodoState :=
            { thingsId := localTodo.thingsId, title := remote.title,
              notes := remote.notes, dueDate := remote.dueDate,
              tags := remote.tags, status := remote.status,
              position := remote.position, editedAt := remote.editedAt }
          let s1 := { s with todos := setA s.todos localTodo.thingsId row }
          applyRemoteUpserts steps (i + 1) s1 curr (applied + 1) rest
      else
        applyRemoteUpserts steps (i + 1) s curr applied rest

/-- One iteration of the tombstone loop of `applyRemoteChanges`. -/
def applyRemoteDeleteOne (now : Int) (curr : List (String × ThingsTodo))
    (acc : LocalState × List ConflictEntry) (deletion : RemoteDeletion) :
    LocalState × List ConflictEntry :=
  let s := acc.1
  let conflicts := acc.2
  match lookupA s.serverIdToThingsId deletion.serverId with
  | none => (s, conflicts)
  | some localThingsId =>
    if localThingsId = "" then (s, conflicts)
    else
      let existsInThings := (lookupA curr localThingsId).isSome
      let localStateTodo := lookupA s.todos localThingsId
      if ¬ existsInThings ∧ localStateTodo.isNone then
        ({ s with serverIdToThingsId := eraseA s.serverIdToThingsId deletion.serverId },
         conflicts)
      else
        match localStateTodo with
        | none => (s, conflicts)
        | some lst =>
          if compareIso deletion.deletedAt lst.editedAt < 0 then
            -- local edit is strictly newer: skip silently
            (s, conflicts)
          else
            (s, conflicts ++
              [{ timestamp := now, serverId := deletion.serverId,
                 title := lst.title,
                 yourVersion := { title := some lst.title, editedAt := some lst.editedAt,
                                  deletedAt := none },
                 winningVersion := { title := none, editedAt := none,
                                     deletedAt := some deletion.deletedAt },
                 reason := "Remote delete was newer (manual delete required)" }])

/-- The tombstone loop of `applyRemoteChanges`. -/
def applyRemoteDeletes (now : Int) (s : LocalState)
    (curr : List (String × ThingsTodo)) (deleted : List RemoteDeletion) :
    LocalState × List ConflictEntry :=
  deleted.foldl (applyRemoteDeleteOne now curr) (s, [])

/-- Function `applyRemoteChanges` from sync.ts: the upsert loop, then the tombstone
loop; an error in the upsert loop escapes and the tombstone loop does not
run. -/
def applyRemoteChanges (now : Int) (steps : Nat → HostStep) (s : LocalState)
    (curr : List (String × ThingsTodo)) (delta : Delta) :
    LocalState × Nat × List ConflictEntry × Option SyncErr :=
  let (s1, curr1, applied, err) := applyRemoteUpserts steps 0 s curr 0 delta.upserted
  match err with
  | some e => (s1, applied, [], some e)
  | none =>
    let (s2, conflicts) := applyRemoteDeletes now s1 curr1 delta.deleted
    (s2, applied, conflicts, none)

/-- The injected environment of one sync cycle: the Things readout, the
HTTP results and the host-app outcomes, plus the cycle wall clock. -/
structure Env where
  now : Int
  hostTodos : Except Unit (List ThingsTodo)
  pushResp : Except Unit PushResponse
  stateResp : Except Unit (List Todo × Int)
  deltaResp : Except Unit Delta
  hostSteps : Nat → HostStep

/-- The statistics `runSync` reports. -/
structure SyncStats where
  pushed : Nat
  pulled : Nat
  conflicts : Nat
deriving DecidableEq, Repr

/-- Function `getServerDelta` from sync.ts: bootstrap from `/state` when the
snapshot and the readout are both empty, otherwise `/delta`. -/
def getServerDelta (env : Env) (s : LocalState) (currentTodos : List ThingsTodo) :
    Except Unit Delta :=
  let shouldBootstrap :=
    s.todos.isEmpty ∧ s.serverIdToThingsId.isEmpty ∧ currentTodos.isEmpty
  if shouldBootstrap then
    match env.stateResp with
    | .ok full => .ok { upserted := full.1, deleted := [], syncedAt := full.2 }
    | .error e => .error e
  else
    env.deltaResp

/-- The pull-and-apply tail of the cycle (steps 5-9 of `runSync` after a
successful or skipped push).  Returns the cycle result and the in-memory
state at exit, which `runSync` writes to disk on both the success and the
error path. -/
def pullPhase (env : Env) (s : LocalState) (currentTodos : List ThingsTodo)
    (currentTodosMap : List (String × ThingsTodo)) (pushed : Nat)
    (conflictCount : Nat) : Except SyncErr SyncStats × LocalState :=
  match getServerDelta env s currentTodos with
  | .error _ => (.error .pull, s)
  | .ok delta =>
    let (s1, applied, conflicts, err) :=
      applyRemoteChanges env.now env.hostSteps s currentTodosMap delta
    match err with
    | some e => (.error e, s1)
    | none =>
      let conflictCount1 := conflictCount + conflicts.length
      let s2 := { s1 with lastSyncedAt := delta.syncedAt }
      (.ok { pushed := pushed, pulled := applied, conflicts := conflictCount1 }, s2)

/-- The body of `runSync` after the snapshot was loaded (steps 1-9 inside
the try block, with the `saveLocalState` calls of the success path and of
the catch handler made explicit by returning the state that is written to
disk). -/
def runSyncFromLoaded (env : Env) (s0 : LocalState) :
    Except SyncErr SyncStats × LocalState :=
  match env.hostTodos with
  | .error _ => (.error .hostRead, s0)
  | .ok currentTodos =>
    let currentTodosMap := jsMapOfList (currentTodos.map (fun t => (t.thingsId, t)))
    let s1 := detectChanges env.now currentTodos s0
    let pushUpserts := buildUpserts currentTodosMap s1
    let (s2, pushDeletes) := buildDeletes currentTodosMap s1
    if pushUpserts.isEmpty ∧ pushDeletes.isEmpty then
      pullPhase env s2 currentTodos currentTodosMap 0 0
    else
      match env.pushResp with
      | .error _ => (.error .push, s2)
      | .ok resp =>
        let pushed := pushUpserts.length + pushDeletes.length
        match processPushMappings s2 resp with
        | (s3, some _) => (.error .dupMapping, s3)
        | (s3, none) =>
          let conflictEntries := conflictsFromPush env.now resp
          let s4 := { s3 with dirty := { upserted := [], deleted := [] } }
          pullPhase env s4 currentTodos currentTodosMap pushed conflictEntries.length

end Client

namespace Snapshot

/-!
The snapshot loader: shallow embedding of `loadLocalState` from sync.ts.
The document is modelled after `JSON.parse`: `none` stands for a document
that is not valid JSON (`JSON.parse` threw), `some v` for the parsed
value.  Field access, truthiness and the `||` / `??` defaulting of the
source act on parsed JSON values.  Timestamps stay strings here, exactly
as in the file format.
-/

/-- A parsed JSON value. -/
inductive JVal where
  | jnull
  | jbool (b : Bool)
  | jnum (n : JsNumber)
  | jstr (s : String)
  | jarr (xs : List JVal)
  | jobj (fields : List (String × JVal))

/-- JS `typeof v === "object"` (arrays and null included). -/
def isObjectType : JVal → Bool
  | .jnull => true
  | .jarr _ => true
  | .jobj _ => true
  | _ => false

/-- Property access `v[k]` for a string key: `none` is `undefined`. -/
def jGet : JVal → String → Option JVal
  | .jobj fields, k => lookupA fields k
  | _, _ => none

/-- JS truthiness of a value; `none` is `undefined`. -/
def jTruthy : Option JVal → Bool
  | none => false
  | some .jnull => false
  | some (.jbool b) => b
  | some (.jnum (.finite x)) => x ≠ 0
  | some (.jnum .nan) => false
  | some (.jnum _) => true
  | some (.jstr s) => s ≠ ""
  | some (.jarr _) => true
  | some (.jobj _) => true

/-- JS `v || d`: the value when truthy, else the default. -/
def jOr (v : Option JVal) (d : JVal) : JVal :=
  if jTruthy v then v.getD d else d

/-- JS `v ?? null`: the value unless it is `undefined` or `null`. -/
def jNullish : Option JVal → JVal
  | none => .jnull
  | some .jnull => .jnull
  | some v => v

/-- JS `Object.entries(v)` of an object-typed value (arrays enumerate their
indices). -/
def entriesOf : JVal → List (String × JVal)
  | .jobj fields => fields
  | .jarr xs => (xs.enum.map (fun p => (toString p.1, p.2)))
  | _ => []

/-- JS spread `{...todo, position: 0}` on an object: copy and overwrite the
`position` field.  (Only reached for object values: the branch requires a
truthy `editedAt` property.) -/
def objSetPosition (v : JVal) : JVal :=
  match v with
  | .jobj fields => .jobj (setA fields "position" (.jnum (.finite 0)))
  | other => other

/-- The migration step of the loader applied to one snapshot record
(the body of the `for` loop over `Object.entries(todos)`):
fill defaults when `editedAt` is missing (v1 migration), else default a
missing or non-finite `position` to `0`. -/
def migrateRecord (lastSyncedAt : String) (thingsId : String) (todo : JVal) : JVal :=
  if ¬ jTruthy (jGet todo "editedAt") then
    .jobj [("thingsId", .jstr thingsId),
           ("title", jOr (jGet todo "title") (.jstr "")),
           ("notes", jOr (jGet todo "notes") (.jstr "")),
           ("dueDate", jNullish (jGet todo "dueDate")),
           ("tags",
             match jGet todo "tags" with
             | some (.jarr xs) => .jarr xs
             | _ => .jarr []),
           ("status", jOr (jGet todo "status") (.jstr "open")),
           ("position",
             match jGet todo "position" with
             | some (.jnum (.finite x)) => .jnum (.finite x)
             | _ => .jnum (.finite 0)),
           ("editedAt", .jstr lastSyncedAt)]
  else
    match jGet todo "position" with
    | some (.jnum (.finite _)) => todo
    | _ => objSetPosition todo

/-- The dirty block of a loaded snapshot. -/
structure LoadedDirty where
  upserted : List JVal
  deleted : List (String × String)

/-- A loaded snapshot (`LocalState` as built by `loadLocalState`; record
values and mapping values are kept as parsed JSON values, as the source
casts without validating them). -/
structure LoadedState where
  lastSyncedAt : String
  todos : List (String × JVal)
  serverIdToThingsId : List (String × JVal)
  dirty : LoadedDirty

mutual

/-- Structural equality of parsed JSON values (JS `Set` membership on the
primitive string values of a well-formed mapping coincides with value
equality, which is how the duplicate check is embedded). -/
def jvalBeq : JVal → JVal → Bool
  | .jnull, .jnull => true
  | .jbool a, .jbool b => a = b
  | .jnum a, .jnum b => a = b
  | .jstr a, .jstr b => a = b
  | .jarr xs, .jarr ys => jvalListBeq xs ys
  | .jobj fs, .jobj gs => jvalFieldsBeq fs gs
  | _, _ => false

def jvalListBeq : List JVal → List JVal → Bool
  | [], [] => true
  | x :: xs, y :: ys => jvalBeq x y && jvalListBeq xs ys
  | _, _ => false

def jvalFieldsBeq : List (String × JVal) → List (String × JVal) → Bool
  | [], [] => true
  | (k1, v1) :: fs, (k2, v2) :: gs => k1 = k2 && jvalBeq v1 v2 && jvalFieldsBeq fs gs
  | _, _ => false

end

/-- Does the list contain two equal values (`new Set(values).size !==
values.length`)? -/
def hasDupValue : List JVal → Bool
  | [] => false
  | x :: xs => xs.any (jvalBeq x) || hasDupValue xs

/-- Function `validateMapping` from sync.ts: reject duplicate thingsId values.
(The second loop of the source has an empty body and is omitted.) -/
def mappingValuesDup (mapping : List (String × JVal)) : Bool :=
  hasDupValue (mapping.map (fun p => p.2))

end Snapshot

namespace Snapshot

/-- JS `typeof v === "object" && v !== null`. -/
def objLike : JVal → Bool
  | .jarr _ => true
  | .jobj _ => true
  | _ => false

/-- Truthiness of the nullable string `lastSyncedAt` (`typeof` check
followed by `!lastSyncedAt`). -/
def strFieldTruthy : Option String → Bool
  | some s => s ≠ ""
  | none => false

/-- Function `loadLocalState` from sync.ts, after the file was read: `doc` is the
`JSON.parse` outcome (`none` when parsing threw), `nowIso` the wall-clock
ISO string used when migrating a v1 array-shaped `dirty.deleted`. -/
def loadLocalState (nowIso : String) (doc : Option JVal) : Except String LoadedState :=
  match doc with
  | none => .error "State file is corrupted (invalid JSON)."
  | some data =>
    if ¬ objLike data then .error "State file is corrupted (invalid structure)."
    else
      let lastSyncedAt : Option String :=
        match jGet data "lastSyncedAt" with
        | some (.jstr s) => some s
        | _ => none
      let todosOpt : Option JVal :=
        match jGet data "todos" with
        | some v => if objLike v then some v else none
        | none => none
      let mappingOpt : Option JVal :=
        match jGet data "serverIdToThingsId" with
        | some v => if objLike v then some v else none
        | none => none
      let dirtyOpt : Option JVal :=
        match jGet data "dirty" with
        | some v => if objLike v then some v else none
        | none => none
      if ¬ (strFieldTruthy lastSyncedAt ∧ todosOpt.isSome ∧ mappingOpt.isSome) then
        .error "State file is corrupted (missing fields)."
      else
        let ls := lastSyncedAt.getD ""
        let todosVal := todosOpt.getD .jnull
        let mappingVal := mappingOpt.getD .jnull
        let upserted : List JVal :=
          match dirtyOpt with
          | some d =>
            match jGet d "upserted" with
            | some (.jarr xs) => xs
            | _ => []
          | none => []
        let deleted : List (String × String) :=
          match dirtyOpt with
          | some d =>
            if jTruthy (jGet d "deleted") then
              match jGet d "deleted" with
              | some (.jarr xs) =>
                xs.foldl (fun acc v =>
                  match v with
                  | .jstr serverId => setA acc serverId nowIso
                  | _ => acc) []
              | some (.jobj fields) =>
                fields.foldl (fun acc p =>
                  match p.2 with
                  | .jstr deletedAt => setA acc p.1 deletedAt
                  | _ => acc) []
              | _ => []
            else []
          | none => []
        let todos : List (String × JVal) :=
          (entriesOf todosVal).map (fun p => (p.1, migrateRecord ls p.1 p.2))
        let mapping : List (String × JVal) := entriesOf mappingVal
        if mappingValuesDup mapping then
          .error "Invalid mapping detected: duplicate thingsId entries."
        else
          .ok { lastSyncedAt := ls, todos := todos, serverIdToThingsId := mapping,
                dirty := { upserted := upserted, deleted := deleted } }

end Snapshot

/-! ## Helper lemmas -/

theorem lookupA_eraseA_self {α : Type} (m : List (String × α)) (k : String) :
    lookupA (eraseA m k) k = none := by
  induction m with
  | nil => rfl
  | cons p rest ih =>
    by_cases h : p.1 = k
    · rw [show eraseA (p :: rest) k = eraseA rest k from by simp [eraseA, h]]
      exact ih
    · rw [show eraseA (p :: rest) k = p :: eraseA rest k from by simp [eraseA, h]]
      have h2 : lookupA (p :: eraseA rest k) k = lookupA (eraseA rest k) k := by
        simp [lookupA, List.find?_cons_of_neg, h]
      exact h2.trans ih

theorem lookupA_setA_self {α : Type} (m : List (String × α)) (k : String) (v : α) :
    lookupA (setA m k v) k = some v := by
  induction m with
  | nil => simp [setA, lookupA]
  | cons p rest ih =>
    by_cases h : p.1 = k
    · simp [setA, lookupA, h, List.any_cons]
    · by_cases h2 : rest.any (fun q => q.1 = k)
      · have := ih
        simp only [setA, h2] at this
        simp only [setA, List.any_cons, h, h2]
        simpa [lookupA, h] using this
      · have := ih
        simp only [setA, h2] at this
        simp only [setA, List.any_cons, h, h2]
        simpa [lookupA, h] using this

/-! ## C1: server merge decision for an upsert against a stored todo -/

/-- C1: For every incoming upsert carrying a server id for which a
stored todo exists (and no tombstone, as guaranteed by invariant I3), the
push handler accepts the upsert when `incoming.editedAt` is strictly newer
than `stored.editedAt`, rejects it with reason "Remote edit was newer" and
the stored version in the conflict when strictly older, and on equal
instants accepts it exactly when the incoming user id is lexicographically
greater than the stored `updatedBy`. -/
theorem C1_upsert_merge_decision
    (uid : String) (now : Int) (st : Server.ServerState)
    (todo : Server.PushTodo) (sid : String) (stored : Server.StoredTodo)
    (fresh : String)
    (hsid : todo.serverId = some sid) (hne : sid ≠ "")
    (htomb : Server.getDeletedByServerId st sid = none)
    (hstored : Server.getTodoByServerId st sid = some stored) :
    (stored.editedAt < todo.editedAt →
      (Server.processUpsert uid now st todo fresh).2.1 = none ∧
      (Server.processUpsert uid now st todo fresh).1 =
        Server.upsertTodo st sid
          { title := todo.title, notes := todo.notes, dueDate := todo.dueDate,
            tags := todo.tags, status := todo.status,
            position := Server.normalizePosition todo.position,
            editedAt := todo.editedAt } uid now) ∧
    (todo.editedAt < stored.editedAt →
      (Server.processUpsert uid now st todo fresh).1 = st ∧
      (Server.processUpsert uid now st todo fresh).2.1 =
        some { serverId := sid, reason := "Remote edit was newer",
               serverTodo := some (Server.toTodo sid stored),
               clientTodo := some todo, clientDeletedAt := none }) ∧
    (todo.editedAt = stored.editedAt →
      ((stored.updatedBy < uid →
        (Server.processUpsert uid now st todo fresh).2.1 = none ∧
        (Server.processUpsert uid now st todo fresh).1 =
          Server.upsertTodo st sid
            { title := todo.title, notes := todo.notes, dueDate := todo.dueDate,
              tags := todo.tags, status := todo.status,
              position := Server.normalizePosition todo.position,
              editedAt := todo.editedAt } uid now) ∧
       (¬ stored.updatedBy < uid →
        (Server.processUpsert uid now st todo fresh).1 = st ∧
        (Server.processUpsert uid now st todo fresh).2.1 =
          some { serverId := sid, reason := "Remote edit was newer",
                 serverTodo := some (Server.toTodo sid stored),
                 clientTodo := some todo, clientDeletedAt := none }))) := by
  have hsid2 : Server.strOr todo.serverId fresh = sid := by
    simp [Server.strOr, hsid, hne]
  refine ⟨?_, ?_, ?_⟩
  · intro hlt
    have hb : Server.shouldApplyChange todo.editedAt stored.editedAt uid stored.updatedBy = true := by
      simp only [Server.shouldApplyChange, Server.compareIso]
      have : todo.editedAt - stored.editedAt > 0 := by omega
      simp [this]
    simp [Server.processUpsert, hsid2, htomb, hstored, hb]
  · intro hlt
    have hb : Server.shouldApplyChange todo.editedAt stored.editedAt uid stored.updatedBy = false := by
      simp only [Server.shouldApplyChange, Server.compareIso]
      have h1 : ¬ todo.editedAt - stored.editedAt > 0 := by omega
      have h2 : todo.editedAt - stored.editedAt < 0 := by omega
      simp [h1, h2]
    simp [Server.processUpsert, hsid2, htomb, hstored, hb]
  · intro heq
    constructor
    · intro hgt
      have hb : Server.shouldApplyChange todo.editedAt stored.editedAt uid stored.updatedBy = true := by
        simp only [Server.shouldApplyChange, Server.compareIso]
        have h1 : ¬ todo.editedAt - stored.editedAt > 0 := by omega
        have h2 : ¬ todo.editedAt - stored.editedAt < 0 := by omega
        simp [h1, h2, hgt]
      simp [Server.processUpsert, hsid2, htomb, hstored, hb]
    · intro hgt
      have hb : Server.shouldApplyChange todo.editedAt stored.editedAt uid stored.updatedBy = false := by
        simp only [Server.shouldApplyChange, Server.compareIso]
        have h1 : ¬ todo.editedAt - stored.editedAt > 0 := by omega
        have h2 : ¬ todo.editedAt - stored.editedAt < 0 := by omega
        simp [h1, h2, hgt]
      simp [Server.processUpsert, hsid2, htomb, hstored, hb]

/-- Witness for C1 at a concrete store and upsert. -/
theorem C1_upsert_merge_decision_witness :
    ∃ st stored,
      Server.getTodoByServerId st "S" = some stored ∧
      (100 : Int) < 200 ∧
      (Server.processUpsert "user-B" 300 st
        { serverId := some "S", clientId := some "L", title := "new",
          notes := "", dueDate := none, tags := [], status := .«open»,
          position := .num (.finite 1), editedAt := 200 } "F").2.1 = none := by
  let stored : Server.StoredTodo :=
    { title := "old", notes := "", dueDate := none, tags := [],
      status := .«open», position := .finite 0, editedAt := 100,
      updatedAt := 50, updatedBy := "user-A" }
  let st : Server.ServerState := { todos := [("S", stored)], tombstones := [] }
  let todo : Server.PushTodo :=
    { serverId := some "S", clientId := some "L", title := "new",
      notes := "", dueDate := none, tags := [], status := .«open»,
      position := .num (.finite 1), editedAt := 200 }
  refine ⟨st, stored, rfl, by norm_num, ?_⟩
  exact ((C1_upsert_merge_decision "user-B" 300 st todo "S" stored "F" rfl
      (by decide) rfl rfl).1 (by norm_num)).1

/-! ## C3: tombstone gate and resurrection -/

/-- C3: For every incoming upsert whose server id has an existing
tombstone: if `incoming.editedAt` is strictly newer than the tombstone's
`deletedAt`, the tombstone is cleared and the upsert is stored (the todo
is resurrected; by invariant I3 no stored todo coexists with the
tombstone); if it is not strictly newer — equality included, regardless of
the user id — the upsert is rejected with a conflict with reason
"Remote delete was newer" and a `null` `serverTodo`, and the store is
unchanged. -/
theorem C3_tombstone_gate
    (uid : String) (now : Int) (st : Server.ServerState)
    (todo : Server.PushTodo) (sid : String) (tomb : Server.Tombstone)
    (fresh : String)
    (hsid : todo.serverId = some sid) (hne : sid ≠ "")
    (htomb : Server.getDeletedByServerId st sid = some tomb) :
    (tomb.deletedAt < todo.editedAt →
      Server.getTodoByServerId st sid = none →
      (Server.processUpsert uid now st todo fresh).2.1 = none ∧
      Server.getDeletedByServerId (Server.processUpsert uid now st todo fresh).1 sid = none ∧
      Server.getTodoByServerId (Server.processUpsert uid now st todo fresh).1 sid =
        some { title := todo.title, notes := todo.notes, dueDate := todo.dueDate,
               tags := todo.tags, status := todo.status,
               position := Server.normalizePosition todo.position,
               editedAt := todo.editedAt, updatedAt := now, updatedBy := uid }) ∧
    (¬ tomb.deletedAt < todo.editedAt →
      (Server.processUpsert uid now st todo fresh).1 = st ∧
      (Server.processUpsert uid now st todo fresh).2.1 =
        some { serverId := sid, reason := "Remote delete was newer",
               serverTodo := none, clientTodo := some todo,
               clientDeletedAt := none }) := by
  have hsid2 : Server.strOr todo.serverId fresh = sid := by
    simp [Server.strOr, hsid, hne]
  have htomb2 : lookupA st.tombstones sid = some tomb := htomb
  constructor
  · intro hlt hnotodo
    have hwin : Server.compareIso todo.editedAt tomb.deletedAt > 0 := by
      simp only [Server.compareIso]; omega
    have hnotodo2 : lookupA st.todos sid = none := hnotodo
    have hlook : Server.getTodoByServerId (Server.clearDeletion st sid) sid = none := by
      simpa [Server.getTodoByServerId, Server.clearDeletion] using hnotodo
    refine ⟨?_, ?_, ?_⟩
    · simp [Server.processUpsert, hsid2, htomb, htomb2, hwin, hlook, hnotodo2]
    · simp [Server.processUpsert, hsid2, htomb, htomb2, hwin, hlook, hnotodo2,
        Server.upsertTodo, Server.clearDeletion, Server.getDeletedByServerId,
        Server.getTodoByServerId, lookupA_eraseA_self]
    · simp [Server.processUpsert, hsid2, htomb, htomb2, hwin, hlook, hnotodo2,
        Server.upsertTodo, Server.clearDeletion, Server.getTodoByServerId,
        lookupA_setA_self]
  · intro hge
    have hwin : ¬ Server.compareIso todo.editedAt tomb.deletedAt > 0 := by
      simp only [Server.compareIso]; omega
    constructor
    · simp [Server.processUpsert, hsid2, htomb, htomb2, hwin]
    · simp [Server.processUpsert, hsid2, htomb, htomb2, hwin]

/-- Witness for C3 at a concrete store: both the resurrection and the
rejection branch. -/
theorem C3_tombstone_gate_witness :
    ∃ st tomb,
      Server.getDeletedByServerId st "S" = some tomb ∧
      (Server.processUpsert "user-A" 300 st
        { serverId := some "S", clientId := none, title := "back",
          notes := "", dueDate := none, tags := [], status := .«open»,
          position := .num (.finite 0), editedAt := 160 } "F").2.1 = none ∧
      (Server.processUpsert "user-A" 300 st
        { serverId := some "S", clientId := none, title := "late",
          notes := "", dueDate := none, tags := [], status := .«open»,
          position := .num (.finite 0), editedAt := 150 } "F").1 = st := by
  let tomb : Server.Tombstone := { deletedAt := 150, recordedAt := 170, deletedBy := "user-B" }
  let st : Server.ServerState := { todos := [], tombstones := [("S", tomb)] }
  let newer : Server.PushTodo :=
    { serverId := some "S", clientId := none, title := "back",
      notes := "", dueDate := none, tags := [], status := .«open»,
      position := .num (.finite 0), editedAt := 160 }
  let equalT : Server.PushTodo :=
    { serverId := some "S", clientId := none, title := "late",
      notes := "", dueDate := none, tags := [], status := .«open»,
      position := .num (.finite 0), editedAt := 150 }
  refine ⟨st, tomb, rfl, ?_, ?_⟩
  · exact ((C3_tombstone_gate "user-A" 300 st newer "S" tomb "F" rfl
      (by decide) rfl).1 (by norm_num) rfl).1
  · exact ((C3_tombstone_gate "user-A" 300 st equalT "S" tomb "F" rfl
      (by decide) rfl).2 (by norm_num)).1

/-! ## C4: incoming deletion handling -/

/-- C4: For every incoming deletion: (a) when no stored todo exists
for its server id, a tombstone is persisted/overwritten exactly when the
incoming `deletedAt` is strictly newer than any existing tombstone (only
the newest is kept) and no conflict is emitted; (b) when a stored todo
exists, the `shouldApplyChange` decision rule is applied to `deletedAt`
versus the stored `editedAt`: on accept the record is removed and a
tombstone recorded, on reject a conflict with reason
"Remote edit was newer" carrying the stored todo is returned and the
record is kept. -/
theorem C4_deletion_handling
    (uid : String) (now : Int) (st : Server.ServerState) (d : Server.Deletion) :
    (Server.getTodoByServerId st d.serverId = none →
      (Server.processDeletion uid now st d).2 = none ∧
      (Server.processDeletion uid now st d).1.todos = st.todos ∧
      (Server.processDeletion uid now st d).1.tombstones =
        (match Server.getDeletedByServerId st d.serverId with
         | none => setA st.tombstones d.serverId
             { deletedAt := d.deletedAt, recordedAt := now, deletedBy := uid }
         | some ex =>
           if ex.deletedAt < d.deletedAt then
             setA st.tombstones d.serverId
               { deletedAt := d.deletedAt, recordedAt := now, deletedBy := uid }
           else st.tombstones)) ∧
    (∀ stored, Server.getTodoByServerId st d.serverId = some stored →
      (Server.shouldApplyChange d.deletedAt stored.editedAt uid stored.updatedBy = true →
        (Server.processDeletion uid now st d).2 = none ∧
        (Server.processDeletion uid now st d).1 =
          Server.recordDeletion (Server.deleteTodoByServerId st d.serverId)
            d.serverId d.deletedAt uid now) ∧
      (Server.shouldApplyChange d.deletedAt stored.editedAt uid stored.updatedBy = false →
        (Server.processDeletion uid now st d).1 = st ∧
        (Server.processDeletion uid now st d).2 =
          some { serverId := d.serverId, reason := "Remote edit was newer",
                 serverTodo := some (Server.toTodo d.serverId stored),
                 clientTodo := none, clientDeletedAt := some d.deletedAt })) := by
  constructor
  · intro hno
    match htomb : Server.getDeletedByServerId st d.serverId with
    | none =>
      refine ⟨?_, ?_, ?_⟩ <;>
        simp [Server.processDeletion, hno, htomb, Server.recordDeletion]
    | some ex =>
      by_cases hcmp : ex.deletedAt < d.deletedAt
      · have hgt : Server.compareIso d.deletedAt ex.deletedAt > 0 := by
          simp only [Server.compareIso]; omega
        refine ⟨?_, ?_, ?_⟩ <;>
          simp [Server.processDeletion, hno, htomb, hgt, Server.recordDeletion, hcmp]
      · have hgt : ¬ Server.compareIso d.deletedAt ex.deletedAt > 0 := by
          simp only [Server.compareIso]; omega
        refine ⟨?_, ?_, ?_⟩ <;>
          simp [Server.processDeletion, hno, htomb, hgt, Server.recordDeletion, hcmp]
  · intro stored hstored
    constructor
    · intro hacc
      constructor <;> simp [Server.processDeletion, hstored, hacc]
    · intro hrej
      constructor <;> simp [Server.processDeletion, hstored, hrej]

/-- Witness for C4: a deletion over a bare tombstone (older: kept) and a
deletion of a stored todo (accepted). -/
theorem C4_deletion_handling_witness :
    ∃ st stored,
      Server.getTodoByServerId st "S" = none ∧
      Server.getTodoByServerId st "T" = some stored ∧
      (Server.processDeletion "user-B" 400 st { serverId := "S", deletedAt := 90 }).1.tombstones
        = st.tombstones ∧
      (Server.processDeletion "user-B" 400 st { serverId := "T", deletedAt := 250 }).1 =
        Server.recordDeletion (Server.deleteTodoByServerId st "T") "T" 250 "user-B" 400 := by
  let stored : Server.StoredTodo :=
    { title := "x", notes := "", dueDate := none, tags := [],
      status := .«open», position := .finite 0, editedAt := 200,
      updatedAt := 210, updatedBy := "user-A" }
  let st : Server.ServerState :=
    { todos := [("T", stored)],
      tombstones := [("S", { deletedAt := 100, recordedAt := 110, deletedBy := "user-A" })] }
  refine ⟨st, stored, rfl, rfl, ?_, ?_⟩
  · have h := ((C4_deletion_handling "user-B" 400 st { serverId := "S", deletedAt := 90 }).1 rfl).2.2
    simpa using h
  · exact (((C4_deletion_handling "user-B" 400 st { serverId := "T", deletedAt := 250 }).2
      stored rfl).1 (by decide)).2

/-! ## C2: replaying an already-applied push -/

/-- One replayed upsert: carrying exactly the stored `editedAt` and the
stored `updatedBy` as the acting user, the tie goes to the stored version
(`incomingUserId > storedUserId` is false on equal ids) and a
"Remote edit was newer" conflict is emitted while the store is
unchanged. -/
theorem processUpsert_replay
    (uid : String) (now : Int) (st : Server.ServerState)
    (t : Server.PushTodo) (fresh : String)
    (hdisj : Server.Disjoint st)
    (h : ∃ sid stored, t.serverId = some sid ∧ sid ≠ "" ∧
      Server.getTodoByServerId st sid = some stored ∧
      t.editedAt = stored.editedAt ∧ uid = stored.updatedBy) :
    ∃ c, Server.processUpsert uid now st t fresh = (st, some c, none) ∧
      c.reason = "Remote edit was newer" := by
  obtain ⟨sid, stored, hsid, hne, hstored, heq, huid⟩ := h
  have hsid2 : Server.strOr t.serverId fresh = sid := by
    simp [Server.strOr, hsid, hne]
  have htomb : Server.getDeletedByServerId st sid = none := by
    have := hdisj sid
    rw [hstored] at this
    simpa [Option.isNone_iff_eq_none] using this rfl
  have hb : Server.shouldApplyChange t.editedAt stored.editedAt uid stored.updatedBy = false := by
    simp only [Server.shouldApplyChange, Server.compareIso]
    have h1 : ¬ t.editedAt - stored.editedAt > 0 := by omega
    have h2 : ¬ t.editedAt - stored.editedAt < 0 := by omega
    have h3 : ¬ stored.updatedBy < uid := by rw [huid]; exact lt_irrefl _
    simp [h1, h2, h3]
  have htomb2 : lookupA st.tombstones sid = none := htomb
  have hstored2 : lookupA st.todos sid = some stored := hstored
  refine ⟨{ serverId := sid, reason := "Remote edit was newer",
            serverTodo := some (Server.toTodo sid stored),
            clientTodo := some t, clientDeletedAt := none }, ?_, rfl⟩
  simp [Server.processUpsert, hsid2, htomb, htomb2, hstored2, hb,
    Server.getTodoByServerId]

/-- Replaying a list of such upserts leaves the store unchanged, emits one
conflict per item and no mappings. -/
theorem processUpserts_replay
    (uid : String) (now : Int) (freshIds : Nat → String)
    (st : Server.ServerState) (hdisj : Server.Disjoint st) :
    ∀ (upserts : List Server.PushTodo) (i : Nat),
      (∀ t ∈ upserts, ∃ sid stored, t.serverId = some sid ∧ sid ≠ "" ∧
        Server.getTodoByServerId st sid = some stored ∧
        t.editedAt = stored.editedAt ∧ uid = stored.updatedBy) →
      (Server.processUpserts uid now freshIds i st upserts).1 = st ∧
      (Server.processUpserts uid now freshIds i st upserts).2.1.length = upserts.length ∧
      (∀ c ∈ (Server.processUpserts uid now freshIds i st upserts).2.1,
        c.reason = "Remote edit was newer") ∧
      (Server.processUpserts uid now freshIds i st upserts).2.2 = [] := by
  intro upserts
  induction upserts with
  | nil => intro i _; simp [Server.processUpserts]
  | cons t rest ih =>
    intro i hall
    obtain ⟨c, hc, hreason⟩ := processUpsert_replay uid now st t (freshIds i) hdisj
      (hall t (List.mem_cons_self t rest))
    have ihr := ih (i + 1) (fun u hu => hall u (List.mem_cons_of_mem t hu))
    simp only [Server.processUpserts, hc]
    refine ⟨ihr.1, ?_, ?_, ?_⟩
    · simp [ihr.2.1]
    · intro c2 hc2
      simp only [Option.toList_some, List.cons_append, List.nil_append,
        List.mem_cons] at hc2
      rcases hc2 with h | h
      · rw [h]; exact hreason
      · exact ihr.2.2.1 c2 h
    · simp [ihr.2.2.2]

/-- C2 (amended): Replaying a push whose upserts carry exactly the
content, `editedAt` and user of the server's current version leaves the
server state unchanged, but the response is not conflict-free: every
replayed upsert is rejected with a "Remote edit was newer" conflict (on an
equal timestamp the incoming user must compare strictly greater than the
stored `updatedBy`, and an equal user id does not). -/
theorem C2_replay_idempotent_amended
    (uid : String) (now : Int) (freshIds : Nat → String)
    (st : Server.ServerState) (req : Server.PushRequest)
    (hdisj : Server.Disjoint st)
    (hdel : req.deleted = [])
    (hrep : ∀ t ∈ req.upserted, ∃ sid stored, t.serverId = some sid ∧ sid ≠ "" ∧
      Server.getTodoByServerId st sid = some stored ∧
      t.editedAt = stored.editedAt ∧ uid = stored.updatedBy) :
    (Server.processPush uid now freshIds st req).1 = st ∧
    (Server.processPush uid now freshIds st req).2.1.length = req.upserted.length ∧
    (∀ c ∈ (Server.processPush uid now freshIds st req).2.1,
      c.reason = "Remote edit was newer") ∧
    (Server.processPush uid now freshIds st req).2.2 = [] := by
  have h := processUpserts_replay uid now freshIds st hdisj req.upserted 0 hrep
  simp only [Server.processPush, hdel, Server.processDeletions]
  exact ⟨h.1, by simpa using h.2.1, by simpa using h.2.2.1, h.2.2.2⟩

/-- The stored todo of the concrete replay scenario. -/
def replayStored : Server.StoredTodo :=
  { title := "t"
    notes := ""
    dueDate := none
    tags := []
    status := .«open»
    position := .finite 0
    editedAt := 100
    updatedAt := 50
    updatedBy := "user-A" }

/-- The concrete server store of the replay scenario. -/
def replayStore : Server.ServerState :=
  { todos := [("S", replayStored)], tombstones := [] }

/-- The replayed upsert: same content, same `editedAt`, pushed by the same
user that is stored in `updatedBy`. -/
def replayUpsert : Server.PushTodo :=
  { serverId := some "S"
    clientId := some "L"
    title := "t"
    notes := ""
    dueDate := none
    tags := []
    status := .«open»
    position := .num (.finite 0)
    editedAt := 100 }

/-- The replayed push request. -/
def replayReq : Server.PushRequest :=
  { upserted := [replayUpsert], deleted := [] }

/-- C2 (counterexample): A concrete replay: one todo stored at
`editedAt = 100`, `updatedBy = "user-A"`; the same user pushes the same
content with the same `editedAt`.  The state is unchanged but the
conflicts list is not empty, contradicting the claimed empty conflicts
list. -/
theorem C2_replay_counterexample :
    (Server.processPush "user-A" 200 (fun _ => "F") replayStore replayReq).2.1 ≠ [] ∧
    (Server.processPush "user-A" 200 (fun _ => "F") replayStore replayReq).1 = replayStore := by
  have hdisj : Server.Disjoint replayStore := by
    intro sid h
    simp [Server.getDeletedByServerId, replayStore, lookupA]
  obtain ⟨c, hc, hr⟩ := processUpsert_replay "user-A" 200 replayStore replayUpsert "F" hdisj
    ⟨"S", replayStored, rfl, by decide, rfl, rfl, rfl⟩
  constructor
  · simp [Server.processPush, Server.processDeletions, Server.processUpserts, replayReq, hc]
  · simp [Server.processPush, Server.processDeletions, Server.processUpserts, replayReq, hc]

/-- Witness for the amended C2 at the same concrete replay. -/
theorem C2_replay_idempotent_amended_witness :
    ∃ (st : Server.ServerState) (req : Server.PushRequest),
      req.upserted.length = 1 ∧
      (Server.processPush "user-A" 200 (fun _ => "F") st req).1 = st ∧
      (Server.processPush "user-A" 200 (fun _ => "F") st req).2.1.length = 1 := by
  have hdisj : Server.Disjoint replayStore := by
    intro sid h
    simp [Server.getDeletedByServerId, replayStore, lookupA]
  have h := C2_replay_idempotent_amended "user-A" 200 (fun _ => "F") replayStore replayReq hdisj rfl
    (by
      intro t ht
      simp only [replayReq, List.mem_singleton] at ht
      subst ht
      exact ⟨"S", replayStored, rfl, by decide, rfl, rfl, rfl⟩)
  refine ⟨replayStore, replayReq, rfl, h.1, ?_⟩
  rw [h.2.1]
  rfl

/-! ## C10: malformed position never rejects a push -/

theorem mem_setA {α : Type} (m : List (String × α)) (k : String) (v : α) :
    ∀ q ∈ setA m k v, q = (k, v) ∨ q ∈ m := by
  intro q hq
  by_cases h : m.any (fun p => p.1 = k)
  · simp only [setA, h, if_pos] at hq
    obtain ⟨p, hp, hpq⟩ := List.mem_map.mp hq
    by_cases h2 : p.1 = k
    · rw [if_pos h2] at hpq
      exact Or.inl hpq.symm
    · rw [if_neg h2] at hpq
      exact Or.inr (hpq ▸ hp)
  · simp only [setA] at hq
    rw [if_neg h] at hq
    rcases List.mem_append.mp hq with h2 | h2
    · exact Or.inr h2
    · exact Or.inl (by simpa using h2)

/-- The accepted-upsert shape: whenever `processUpsert` emits no conflict,
the resulting todos table is the original one with the normalized row
written under the effective server id. -/
theorem processUpsert_accept_shape
    (uid : String) (now : Int) (st : Server.ServerState)
    (todo : Server.PushTodo) (fresh : String)
    (hacc : (Server.processUpsert uid now st todo fresh).2.1 = none) :
    (Server.processUpsert uid now st todo fresh).1.todos =
      setA st.todos (Server.strOr todo.serverId fresh)
        { title := todo.title, notes := todo.notes, dueDate := todo.dueDate,
          tags := todo.tags, status := todo.status,
          position := Server.normalizePosition todo.position,
          editedAt := todo.editedAt, updatedAt := now, updatedBy := uid } := by
  cases hdel : Server.getDeletedByServerId st (Server.strOr todo.serverId fresh) with
  | some ex =>
    by_cases hwin : Server.compareIso todo.editedAt ex.deletedAt > 0
    · cases hex : lookupA st.todos (Server.strOr todo.serverId fresh) with
      | some existing =>
        by_cases happ : Server.shouldApplyChange todo.editedAt existing.editedAt
            uid existing.updatedBy = true
        · simp [Server.processUpsert, hdel, hwin, hex, happ, Server.upsertTodo,
            Server.clearDeletion, Server.getTodoByServerId]
        · exfalso
          revert hacc
          simp [Server.processUpsert, hdel, hwin, hex, happ,
            Server.clearDeletion, Server.getTodoByServerId]
      | none =>
        simp [Server.processUpsert, hdel, hwin, hex, Server.upsertTodo,
          Server.clearDeletion, Server.getTodoByServerId]
    · exfalso
      revert hacc
      simp [Server.processUpsert, hdel, hwin]
  | none =>
    cases hex : lookupA st.todos (Server.strOr todo.serverId fresh) with
    | some existing =>
      by_cases happ : Server.shouldApplyChange todo.editedAt existing.editedAt
          uid existing.updatedBy = true
      · simp [Server.processUpsert, hdel, hex, happ, Server.upsertTodo,
          Server.getTodoByServerId]
      · exfalso
        revert hacc
        simp [Server.processUpsert, hdel, hex, happ, Server.getTodoByServerId]
    | none =>
      simp [Server.processUpsert, hdel, hex, Server.upsertTodo,
        Server.getTodoByServerId]

/-- The conflict decision of `processUpsert` does not depend on the
incoming position field. -/
theorem processUpsert_conflict_position_independent
    (uid : String) (now : Int) (st : Server.ServerState)
    (todo : Server.PushTodo) (fresh : String) (p q : Server.PosField) :
    ((Server.processUpsert uid now st { todo with position := p } fresh).2.1).isSome =
    ((Server.processUpsert uid now st { todo with position := q } fresh).2.1).isSome := by
  cases hdel : Server.getDeletedByServerId st (Server.strOr todo.serverId fresh) with
  | some ex =>
    by_cases hwin : Server.compareIso todo.editedAt ex.deletedAt > 0
    · cases hex : lookupA st.todos (Server.strOr todo.serverId fresh) with
      | some existing =>
        by_cases happ : Server.shouldApplyChange todo.editedAt existing.editedAt
            uid existing.updatedBy = true
        · simp [Server.processUpsert, hdel, hwin, hex, happ,
            Server.clearDeletion, Server.getTodoByServerId]
        · simp [Server.processUpsert, hdel, hwin, hex, happ,
            Server.clearDeletion, Server.getTodoByServerId]
      | none => simp [Server.processUpsert, hdel, hwin, hex,
          Server.clearDeletion, Server.getTodoByServerId]
    · simp [Server.processUpsert, hdel, hwin]
  | none =>
    cases hex : lookupA st.todos (Server.strOr todo.serverId fresh) with
    | some existing =>
      by_cases happ : Server.shouldApplyChange todo.editedAt existing.editedAt
          uid existing.updatedBy = true
      · simp [Server.processUpsert, hdel, hex, happ, Server.getTodoByServerId]
      · simp [Server.processUpsert, hdel, hex, happ, Server.getTodoByServerId]
    | none => simp [Server.processUpsert, hdel, hex, Server.getTodoByServerId]

/-- C10: Malformed positions never reject a push and are normalized
to a finite 0: (a) the server guard maps an absent, non-numeric or
non-finite position to `0`; (b) the accept/reject decision of the upsert
handler is independent of the position field; (c) an accepted upsert is
stored with position `0` when the incoming position was malformed;
(d) pushes preserve the all-positions-finite invariant of the store;
(e) the client loader gives position `0` to a record whose position is
missing or non-finite, and (f) every record it loads has a finite
position. -/
theorem C10_malformed_position
    : (∀ p : Server.PosField, (∀ x : Int, p ≠ .num (.finite x)) →
        Server.normalizePosition p = .finite 0) ∧
      (∀ (uid : String) (now : Int) (st : Server.ServerState)
          (todo : Server.PushTodo) (fresh : String) (p q : Server.PosField),
        ((Server.processUpsert uid now st { todo with position := p } fresh).2.1).isSome =
        ((Server.processUpsert uid now st { todo with position := q } fresh).2.1).isSome) ∧
      (∀ (uid : String) (now : Int) (st : Server.ServerState)
          (todo : Server.PushTodo) (fresh : String),
        (∀ x : Int, todo.position ≠ .num (.finite x)) →
        (Server.processUpsert uid now st todo fresh).2.1 = none →
        Server.getTodoByServerId (Server.processUpsert uid now st todo fresh).1
            (Server.strOr todo.serverId fresh) =
          some { title := todo.title, notes := todo.notes, dueDate := todo.dueDate,
                 tags := todo.tags, status := todo.status,
                 position := .finite 0,
                 editedAt := todo.editedAt, updatedAt := now, updatedBy := uid }) ∧
      (∀ (uid : String) (now : Int) (freshIds : Nat → String)
          (st : Server.ServerState) (req : Server.PushRequest),
        Server.allPositionsFinite st →
        Server.allPositionsFinite (Server.processPush uid now freshIds st req).1) ∧
      (∀ (ls tid : String) (v : Snapshot.JVal),
        (∀ x : Int, Snapshot.jGet v "position" ≠ some (.jnum (.finite x))) →
        Snapshot.jGet (Snapshot.migrateRecord ls tid v) "position" =
          some (.jnum (.finite 0))) ∧
      (∀ (ls tid : String) (v : Snapshot.JVal),
        ∃ x : Int, Snapshot.jGet (Snapshot.migrateRecord ls tid v) "position" =
          some (.jnum (.finite x))) := by
  have hnorm : ∀ p : Server.PosField, (∀ x : Int, p ≠ .num (.finite x)) →
      Server.normalizePosition p = .finite 0 := by
    intro p hp
    match p with
    | .missing => rfl
    | .notNumber => rfl
    | .num .nan => rfl
    | .num .posInf => rfl
    | .num .negInf => rfl
    | .num (.finite x) => exact absurd rfl (hp x)
  have hmig : ∀ (ls tid : String) (v : Snapshot.JVal),
      (Snapshot.jGet (Snapshot.migrateRecord ls tid v) "position" =
        match Snapshot.jGet v "position" with
        | some (.jnum (.finite x)) => some (.jnum (.finite x))
        | _ => some (.jnum (.finite 0))) := by
    intro ls tid v
    by_cases he : Snapshot.jTruthy (Snapshot.jGet v "editedAt")
    · match v with
      | .jobj fields =>
        simp only [Snapshot.migrateRecord, he, not_true_eq_false, if_neg,
          Bool.false_eq_true, not_false_eq_true]
        match hpos : Snapshot.jGet (Snapshot.JVal.jobj fields) "position" with
        | some (.jnum (.finite x)) => simp [hpos]
        | none =>
          simp only [hpos, Snapshot.objSetPosition, Snapshot.jGet]
          exact lookupA_setA_self fields "position" _
        | some .jnull =>
          simp only [hpos, Snapshot.objSetPosition, Snapshot.jGet]
          exact lookupA_setA_self fields "position" _
        | some (.jbool b) =>
          simp only [hpos, Snapshot.objSetPosition, Snapshot.jGet]
          exact lookupA_setA_self fields "position" _
        | some (.jnum .nan) =>
          simp only [hpos, Snapshot.objSetPosition, Snapshot.jGet]
          exact lookupA_setA_self fields "position" _
        | some (.jnum .posInf) =>
          simp only [hpos, Snapshot.objSetPosition, Snapshot.jGet]
          exact lookupA_setA_self fields "position" _
        | some (.jnum .negInf) =>
          simp only [hpos, Snapshot.objSetPosition, Snapshot.jGet]
          exact lookupA_setA_self fields "position" _
        | some (.jstr s2) =>
          simp only [hpos, Snapshot.objSetPosition, Snapshot.jGet]
          exact lookupA_setA_self fields "position" _
        | some (.jarr xs) =>
          simp only [hpos, Snapshot.objSetPosition, Snapshot.jGet]
          exact lookupA_setA_self fields "position" _
        | some (.jobj gs) =>
          simp only [hpos, Snapshot.objSetPosition, Snapshot.jGet]
          exact lookupA_setA_self fields "position" _
      | .jnull => simp [Snapshot.jGet, Snapshot.jTruthy] at he
      | .jbool b => simp [Snapshot.jGet, Snapshot.jTruthy] at he
      | .jnum n => simp [Snapshot.jGet, Snapshot.jTruthy] at he
      | .jstr s2 => simp [Snapshot.jGet, Snapshot.jTruthy] at he
      | .jarr xs => simp [Snapshot.jGet, Snapshot.jTruthy] at he
    · simp only [Snapshot.migrateRecord, he, not_false_eq_true, if_pos]
      match hpos : Snapshot.jGet v "position" with
      | some (.jnum (.finite x)) => simp [hpos, Snapshot.jGet, lookupA]
      | none => simp [hpos, Snapshot.jGet, lookupA]
      | some .jnull => simp [hpos, Snapshot.jGet, lookupA]
      | some (.jbool b) => simp [hpos, Snapshot.jGet, lookupA]
      | some (.jnum .nan) => simp [hpos, Snapshot.jGet, lookupA]
      | some (.jnum .posInf) => simp [hpos, Snapshot.jGet, lookupA]
      | some (.jnum .negInf) => simp [hpos, Snapshot.jGet, lookupA]
      | some (.jstr s2) => simp [hpos, Snapshot.jGet, lookupA]
      | some (.jarr xs) => simp [hpos, Snapshot.jGet, lookupA]
      | some (.jobj gs) => simp [hpos, Snapshot.jGet, lookupA]
  refine ⟨hnorm, processUpsert_conflict_position_independent, ?_, ?_, ?_, ?_⟩
  · intro uid now st todo fresh hmal hacc
    have hshape := processUpsert_accept_shape uid now st todo fresh hacc
    have hn : Server.normalizePosition todo.position = .finite 0 := hnorm _ hmal
    rw [hn] at hshape
    simp only [Server.getTodoByServerId, hshape]
    exact lookupA_setA_self _ _ _
  · intro uid now freshIds st req hfin
    have hdel : ∀ (ds : List Server.Deletion) (st1 : Server.ServerState),
        Server.allPositionsFinite st1 →
        Server.allPositionsFinite (Server.processDeletions uid now st1 ds).1 := by
      intro ds
      induction ds with
      | nil => intro st1 h; simpa [Server.processDeletions] using h
      | cons d rest ih =>
        intro st1 h
        have hone : Server.allPositionsFinite (Server.processDeletion uid now st1 d).1 := by
          simp only [Server.processDeletion]
          split
          · split
            · intro p hp; exact h p hp
            · split
              · intro p hp; exact h p hp
              · intro p hp; exact h p hp
          · split
            · intro p hp; exact h p hp
            · intro p hp
              simp only [Server.recordDeletion, Server.deleteTodoByServerId] at hp
              exact h p (List.mem_of_mem_filter hp)
        simp only [Server.processDeletions]
        exact ih _ hone
    have hup : ∀ (us : List Server.PushTodo) (i : Nat) (st1 : Server.ServerState),
        Server.allPositionsFinite st1 →
        Server.allPositionsFinite (Server.processUpserts uid now freshIds i st1 us).1 := by
      intro us
      induction us with
      | nil => intro i st1 h; simpa [Server.processUpserts] using h
      | cons t rest ih =>
        intro i st1 h
        have hone : Server.allPositionsFinite (Server.processUpsert uid now st1 t (freshIds i)).1 := by
          cases hdel2 : Server.getDeletedByServerId st1 (Server.strOr t.serverId (freshIds i)) with
          | some ex =>
            by_cases hwin : Server.compareIso t.editedAt ex.deletedAt > 0
            · cases hex : lookupA st1.todos (Server.strOr t.serverId (freshIds i)) with
              | some existing =>
                by_cases happ : Server.shouldApplyChange t.editedAt existing.editedAt
                    uid existing.updatedBy = true
                · simp only [Server.processUpsert, hdel2, hwin, hex, happ,
                    Server.clearDeletion, Server.getTodoByServerId, if_pos]
                  intro p hp
                  simp only [Server.upsertTodo] at hp
                  rcases mem_setA _ _ _ p hp with hq | hq
                  · rw [hq]
                    cases hm : t.position with
                    | num n => cases n <;> simp [Server.normalizePosition, JsNumber.isFinite]
                    | missing => simp [Server.normalizePosition, JsNumber.isFinite]
                    | notNumber => simp [Server.normalizePosition, JsNumber.isFinite]
                  · exact h p hq
                · simp only [Server.processUpsert, hdel2, hwin, hex, happ,
                    Server.clearDeletion, Server.getTodoByServerId, if_pos,
                    if_neg, if_false]
                  intro p hp; exact h p hp
              | none =>
                simp only [Server.processUpsert, hdel2, hwin, hex,
                  Server.clearDeletion, Server.getTodoByServerId, if_pos]
                intro p hp
                simp only [Server.upsertTodo] at hp
                rcases mem_setA _ _ _ p hp with hq | hq
                · rw [hq]
                  cases hm : t.position with
                  | num n => cases n <;> simp [Server.normalizePosition, JsNumber.isFinite]
                  | missing => simp [Server.normalizePosition, JsNumber.isFinite]
                  | notNumber => simp [Server.normalizePosition, JsNumber.isFinite]
                · exact h p hq
            · simp only [Server.processUpsert, hdel2, if_neg hwin]
              intro p hp; exact h p hp
          | none =>
            cases hex : lookupA st1.todos (Server.strOr t.serverId (freshIds i)) with
            | some existing =>
              by_cases happ : Server.shouldApplyChange t.editedAt existing.editedAt
                  uid existing.updatedBy = true
              · simp only [Server.processUpsert, hdel2, hex, happ,
                  Server.getTodoByServerId, if_pos]
                intro p hp
                simp only [Server.upsertTodo] at hp
                rcases mem_setA _ _ _ p hp with hq | hq
                · rw [hq]
                  cases hm : t.position with
                  | num n => cases n <;> simp [Server.normalizePosition, JsNumber.isFinite]
                  | missing => simp [Server.normalizePosition, JsNumber.isFinite]
                  | notNumber => simp [Server.normalizePosition, JsNumber.isFinite]
                · exact h p hq
              · simp only [Server.processUpsert, hdel2, hex, happ,
                  Server.getTodoByServerId, if_neg, if_false]
                intro p hp; exact h p hp
            | none =>
              simp only [Server.processUpsert, hdel2, hex,
                Server.getTodoByServerId]
              intro p hp
              simp only [Server.upsertTodo] at hp
              rcases mem_setA _ _ _ p hp with hq | hq
              · rw [hq]
                cases hm : t.position with
                | num n => cases n <;> simp [Server.normalizePosition, JsNumber.isFinite]
                | missing => simp [Server.normalizePosition, JsNumber.isFinite]
                | notNumber => simp [Server.normalizePosition, JsNumber.isFinite]
              · exact h p hq
        simp only [Server.processUpserts]
        exact ih _ _ hone
    simp only [Server.processPush]
    exact hup _ _ _ (hdel _ _ hfin)
  · intro ls tid v hmal
    rw [hmig ls tid v]
    match hpos : Snapshot.jGet v "position" with
    | some (.jnum (.finite x)) => exact absurd hpos (hmal x)
    | none => rfl
    | some .jnull => rfl
    | some (.jbool b) => rfl
    | some (.jnum .nan) => rfl
    | some (.jnum .posInf) => rfl
    | some (.jnum .negInf) => rfl
    | some (.jstr s2) => rfl
    | some (.jarr xs) => rfl
    | some (.jobj gs) => rfl
  · intro ls tid v
    rw [hmig ls tid v]
    match hpos : Snapshot.jGet v "position" with
    | some (.jnum (.finite x)) => exact ⟨x, rfl⟩
    | none => exact ⟨0, rfl⟩
    | some .jnull => exact ⟨0, rfl⟩
    | some (.jbool b) => exact ⟨0, rfl⟩
    | some (.jnum .nan) => exact ⟨0, rfl⟩
    | some (.jnum .posInf) => exact ⟨0, rfl⟩
    | some (.jnum .negInf) => exact ⟨0, rfl⟩
    | some (.jstr s2) => exact ⟨0, rfl⟩
    | some (.jarr xs) => exact ⟨0, rfl⟩
    | some (.jobj gs) => exact ⟨0, rfl⟩

/-- Witness for C10 at concrete inputs. -/
theorem C10_malformed_position_witness :
    Server.normalizePosition .missing = .finite 0 ∧
    Snapshot.jGet (Snapshot.migrateRecord "T0" "L"
        (.jobj [("editedAt", .jstr "T1"), ("position", .jstr "oops")]))
      "position" = some (.jnum (.finite 0)) := by
  refine ⟨C10_malformed_position.1 .missing (by intro x h; cases h), ?_⟩
  exact C10_malformed_position.2.2.2.2.1 "T0" "L"
    (.jobj [("editedAt", .jstr "T1"), ("position", .jstr "oops")])
    (by intro x h; simp [Snapshot.jGet, lookupA] at h)

/-! ## C6: remote-delete application on the client -/

/-- The snapshot record of the concrete delete-vs-local-edit scenario. -/
def deleteExRecord : Client.LocalTodoState :=
  { thingsId := "L"
    title := "a"
    notes := ""
    dueDate := none
    tags := []
    status := .«open»
    position := 0
    editedAt := 20 }

/-- The concrete client snapshot of the scenario: server id `S` is mapped
to local id `L`, whose record was edited at instant 20. -/
def deleteExState : Client.LocalState :=
  { lastSyncedAt := 10
    todos := [("L", deleteExRecord)]
    serverIdToThingsId := [("S", "L")]
    dirty := { upserted := [], deleted := [] } }

/-- The Things readout of the scenario: the item still exists. -/
def deleteExCurr : List (String × Client.ThingsTodo) :=
  [("L", { thingsId := "L", title := "a", notes := "", dueDate := none,
           tags := [], status := .«open» })]

/-- C6 (counterexample): A pulled tombstone for `S` deleted at
instant 15 while the mapped, still-existing local item was edited at
instant 20 (the local edit is strictly newer): the applier emits NO
conflict entry at all — in particular no DeleteVsLocalEdit entry, contrary
to the claim — and leaves the state untouched. -/
theorem C6_delete_vs_local_edit_counterexample :
    Client.applyRemoteDeletes 99 deleteExState deleteExCurr
      [{ serverId := "S", deletedAt := 15 }] = (deleteExState, []) := by
  decide

/-- C6 (amended): For every tombstone in a pulled delta whose server
id maps to a local item that still exists in the host app and has a
snapshot record: if the record's `editedAt` is strictly newer than the
tombstone's `deletedAt` the applier skips the tombstone silently (no
entry of any kind); otherwise it emits a conflict entry with reason
"Remote delete was newer (manual delete required)".  In both cases the
snapshot, the mapping and the host-app item are untouched. -/
theorem C6_remote_delete_apply_amended
    (now : Int) (s : Client.LocalState) (curr : List (String × Client.ThingsTodo))
    (d : Client.RemoteDeletion) (ltid : String) (lst : Client.LocalTodoState)
    (hmap : lookupA s.serverIdToThingsId d.serverId = some ltid)
    (hne : ltid ≠ "")
    (hcurr : (lookupA curr ltid).isSome)
    (hrec : lookupA s.todos ltid = some lst) :
    (Client.applyRemoteDeletes now s curr [d]).1 = s ∧
    (d.deletedAt < lst.editedAt →
      (Client.applyRemoteDeletes now s curr [d]).2 = []) ∧
    (¬ d.deletedAt < lst.editedAt →
      (Client.applyRemoteDeletes now s curr [d]).2 =
        [{ timestamp := now, serverId := d.serverId, title := lst.title,
           yourVersion := { title := some lst.title, editedAt := some lst.editedAt,
                            deletedAt := none },
           winningVersion := { title := none, editedAt := none,
                               deletedAt := some d.deletedAt },
           reason := "Remote delete was newer (manual delete required)" }]) := by
  have hgate : ¬ (¬ (lookupA curr ltid).isSome = true ∧ (lookupA s.todos ltid).isNone = true) := by
    intro h
    exact h.1 hcurr
  refine ⟨?_, ?_, ?_⟩
  · simp only [Client.applyRemoteDeletes, List.foldl_cons, List.foldl_nil,
      Client.applyRemoteDeleteOne, hmap, hne, hrec]
    simp [hgate, hcurr, hrec, Client.compareIso]
    split <;> rfl
  · intro hlt
    have hcmp : Client.compareIso d.deletedAt lst.editedAt < 0 := by
      simp only [Client.compareIso]; omega
    simp only [Client.applyRemoteDeletes, List.foldl_cons, List.foldl_nil,
      Client.applyRemoteDeleteOne, hmap, hne, hrec]
    simp [hgate, hcurr, hrec, hcmp, hne]
  · intro hge
    have hcmp : ¬ Client.compareIso d.deletedAt lst.editedAt < 0 := by
      simp only [Client.compareIso]; omega
    simp only [Client.applyRemoteDeletes, List.foldl_cons, List.foldl_nil,
      Client.applyRemoteDeleteOne, hmap, hne, hrec]
    simp [hgate, hcurr, hrec, hcmp, hne]

/-- Witness for the amended C6 at the concrete scenario, both branches
(tombstone older at 15: silent skip; tombstone newer at 25: one conflict
entry). -/
theorem C6_remote_delete_apply_amended_witness :
    (Client.applyRemoteDeletes 99 deleteExState deleteExCurr
      [{ serverId := "S", deletedAt := 25 }]).2 =
      [{ timestamp := 99, serverId := "S", title := "a",
         yourVersion := { title := some "a", editedAt := some 20, deletedAt := none },
         winningVersion := { title := none, editedAt := none, deletedAt := some 25 },
         reason := "Remote delete was newer (manual delete required)" }] ∧
    (Client.applyRemoteDeletes 99 deleteExState deleteExCurr
      [{ serverId := "S", deletedAt := 25 }]).1 = deleteExState := by
  have h := C6_remote_delete_apply_amended 99 deleteExState deleteExCurr
    { serverId := "S", deletedAt := 25 } "L" deleteExRecord rfl (by decide) (by decide) rfl
  exact ⟨h.2.2 (by decide), h.1⟩

/-! ## C8: tag comparison in the change detector -/

theorem mem_setAdd (l : List String) (a x : String) :
    x ∈ Client.setAdd l a ↔ x ∈ l ∨ x = a := by
  by_cases h : a ∈ l
  · simp only [Client.setAdd, h, if_pos]
    constructor
    · exact Or.inl
    · rintro (h2 | h2)
      · exact h2
      · rw [h2]; exact h
  · simp only [Client.setAdd, h, if_neg]
    simp

theorem mem_foldl_setAdd (l : List String) :
    ∀ (acc : List String) (x : String),
      x ∈ l.foldl Client.setAdd acc ↔ x ∈ acc ∨ x ∈ l := by
  induction l with
  | nil => intro acc x; simp
  | cons a rest ih =>
    intro acc x
    simp only [List.foldl_cons]
    rw [ih (Client.setAdd acc a) x, mem_setAdd]
    constructor
    · rintro ((h | h) | h)
      · exact Or.inl h
      · exact Or.inr (by rw [h]; exact List.mem_cons_self a rest)
      · exact Or.inr (List.mem_cons_of_mem a h)
    · rintro (h | h)
      · exact Or.inl (Or.inl h)
      · rcases List.mem_cons.mp h with h2 | h2
        · exact Or.inl (Or.inr h2)
        · exact Or.inr h2

theorem mem_setOfList (l : List String) (x : String) :
    x ∈ Client.setOfList l ↔ x ∈ l := by
  rw [Client.setOfList, mem_foldl_setAdd]
  simp

theorem jsMapOfList_singleton {α : Type} (p : String × α) :
    Client.jsMapOfList [p] = [p] := by
  simp [Client.jsMapOfList, Client.jsMapSet, setA]

/-- The detector's prior record of the concrete tag-order scenario. -/
def tagsExPrev : Client.LocalTodoState :=
  { thingsId := "L"
    title := "a"
    notes := ""
    dueDate := none
    tags := ["x", "y"]
    status := .«open»
    position := 0
    editedAt := 20 }

/-- The current Things readout of the same todo, identical except that the
tag list is in the opposite order (the same set of tags). -/
def tagsExCurr : Client.ThingsTodo :=
  { thingsId := "L"
    title := "a"
    notes := ""
    dueDate := none
    tags := ["y", "x"]
    status := .«open» }

/-- The concrete snapshot of the tag-order scenario. -/
def tagsExState : Client.LocalState :=
  { lastSyncedAt := 10
    todos := [("L", tagsExPrev)]
    serverIdToThingsId := [("S", "L")]
    dirty := { upserted := [], deleted := [] } }

/-- C8 (counterexample): A todo and its snapshot record agree on
title, notes, dueDate, status and position, and their tag lists hold
exactly the same tags in a different order; the change detector still
classifies the todo as modified: it is added to `dirty.upserted` and its
`editedAt` is rewritten to the cycle timestamp. -/
theorem C8_tag_order_counterexample :
    tagsExPrev.tags.Perm tagsExCurr.tags ∧
    tagsExPrev.title = tagsExCurr.title ∧
    tagsExPrev.notes = tagsExCurr.notes ∧
    tagsExPrev.dueDate = tagsExCurr.dueDate ∧
    tagsExPrev.status = tagsExCurr.status ∧
    tagsExPrev.position = 0 ∧
    Client.hasChanged tagsExPrev tagsExCurr 0 = true ∧
    (Client.detectChanges 77 [tagsExCurr] tagsExState).dirty.upserted = ["L"] ∧
    lookupA (Client.detectChanges 77 [tagsExCurr] tagsExState).todos "L" =
      some { thingsId := "L", title := "a", notes := "", dueDate := none,
             tags := ["y", "x"], status := .«open», position := 0,
             editedAt := 77 } := by
  refine ⟨by decide, rfl, rfl, rfl, rfl, rfl, by decide, by decide, by decide⟩

/-- C8 (amended): The tag comparison of the change detector is
order-sensitive: a todo is left unclassified (not added to
`dirty.upserted`, record and `editedAt` untouched) exactly when title,
notes, dueDate, status and position agree and the tag lists are equal as
lists — the same tags in the same order. -/
theorem C8_change_detection_amended :
    (∀ (prev : Client.LocalTodoState) (curr : Client.ThingsTodo) (pos : Int),
      Client.hasChanged prev curr pos = false ↔
        (prev.title = curr.title ∧ prev.notes = curr.notes ∧
         prev.dueDate = curr.dueDate ∧ prev.status = curr.status ∧
         prev.position = pos ∧ prev.tags = curr.tags)) ∧
    (∀ (now : Int) (tid : String) (prev : Client.LocalTodoState)
        (curr : Client.ThingsTodo) (s : Client.LocalState),
      s.todos = [(tid, prev)] → curr.thingsId = tid →
      Client.hasChanged prev curr 0 = false →
      (Client.detectChanges now [curr] s).todos = s.todos ∧
      (tid ∈ (Client.detectChanges now [curr] s).dirty.upserted ↔
        tid ∈ s.dirty.upserted)) := by
  constructor
  · intro prev curr pos
    constructor
    · intro h
      simp only [Client.hasChanged, decide_eq_false_iff_not] at h
      push_neg at h
      exact h
    · intro h
      simp only [Client.hasChanged, decide_eq_false_iff_not]
      push_neg
      exact h
  · intro now tid prev curr s htodos hcurrid hnochange
    have hlook : lookupA s.todos tid = some prev := by
      simp [htodos, lookupA]
    have hone : ∀ du, Client.detectOne now [(tid, ((0 : Nat) : Int))]
        (s, du) (tid, curr) = (s, du) := by
      intro du
      have hlook2 : Option.map (fun p => p.2)
          (List.find? (fun p => decide (p.1 = tid)) s.todos) = some prev := hlook
      simp [Client.detectOne, lookupA, hlook2, hnochange]
    have hgone : Client.detectGoneOne now [(tid, curr)] s tid = s := by
      simp [Client.detectGoneOne, lookupA]
    have hunfold : Client.detectChanges now [curr] s =
        { s with dirty := { s.dirty with
            upserted := (Client.setOfList s.dirty.upserted).filter
              (fun id => (lookupA [(tid, curr)] id).isSome) } } := by
      simp only [Client.detectChanges, List.enum, List.enumFrom,
        List.map_cons, List.map_nil, hcurrid, jsMapOfList_singleton,
        List.foldl_cons, List.foldl_nil, hone, htodos, hgone]
    rw [hunfold]
    refine ⟨rfl, ?_⟩
    simp [List.mem_filter, mem_setOfList, lookupA]

/-- Witness for the amended C8: identical tag order leaves the todo
unclassified. -/
theorem C8_change_detection_amended_witness :
    Client.hasChanged tagsExPrev
      { thingsId := "L", title := "a", notes := "", dueDate := none,
        tags := ["x", "y"], status := .«open» } 0 = false ∧
    (Client.detectChanges 77
      [{ thingsId := "L", title := "a", notes := "", dueDate := none,
         tags := ["x", "y"], status := .«open» }] tagsExState).todos =
      tagsExState.todos := by
  constructor
  · exact (C8_change_detection_amended.1 tagsExPrev _ 0).mpr
      ⟨rfl, rfl, rfl, rfl, rfl, rfl⟩
  · exact (C8_change_detection_amended.2 77 "L" tagsExPrev _ tagsExState rfl rfl
      (by decide)).1

/-! ## C9: strict snapshot parse with schema tolerance -/

/-- Branch-1 evaluation of the migration step: a record without a truthy
`editedAt` is rebuilt from defaults. -/
theorem migrateRecord_v1 (ls tid : String) (rfs : List (String × Snapshot.JVal))
    (he : Snapshot.jTruthy (lookupA rfs "editedAt") = false) :
    Snapshot.migrateRecord ls tid (.jobj rfs) =
      .jobj [("thingsId", .jstr tid),
             ("title", Snapshot.jOr (lookupA rfs "title") (.jstr "")),
             ("notes", Snapshot.jOr (lookupA rfs "notes") (.jstr "")),
             ("dueDate", Snapshot.jNullish (lookupA rfs "dueDate")),
             ("tags",
               match lookupA rfs "tags" with
               | some (.jarr xs) => .jarr xs
               | _ => .jarr []),
             ("status", Snapshot.jOr (lookupA rfs "status") (.jstr "open")),
             ("position",
               match lookupA rfs "position" with
               | some (.jnum (.finite x)) => .jnum (.finite x)
               | _ => .jnum (.finite 0)),
             ("editedAt", .jstr ls)] := by
  have hcond : ¬ (Snapshot.jTruthy (Snapshot.jGet (.jobj rfs) "editedAt") = true) := by
    have h2 : Snapshot.jGet (.jobj rfs) "editedAt" = lookupA rfs "editedAt" := rfl
    rw [h2, he]
    simp
  simp only [Snapshot.migrateRecord]
  rw [if_pos hcond]
  rfl

/-- C9: Loading the device snapshot fails with a corrupt-state error
whenever the document is not valid JSON, is not an object, or is missing
any of the required fields `lastSyncedAt`, `todos`, `serverIdToThingsId`
(no silent reset: the result is an error, never a fresh state); on
success with an object-shaped `todos`, every record is passed through the
migration step, and a record without a (truthy) `editedAt` has all its
optional fields defaulted — `editedAt` to the snapshot's `lastSyncedAt`,
`title`/`notes` to `""`, `dueDate` to `null`, `tags` to `[]`, `status` to
`"open"`, `position` to `0` — while a record with `editedAt` whose
`position` is missing gets only `position` defaulted to `0`. -/
theorem C9_snapshot_parse
    : (∀ n : String, Snapshot.loadLocalState n none =
        .error "State file is corrupted (invalid JSON).") ∧
      (∀ (n : String) (v : Snapshot.JVal), Snapshot.objLike v = false →
        Snapshot.loadLocalState n (some v) =
          .error "State file is corrupted (invalid structure).") ∧
      (∀ (n : String) (fields : List (String × Snapshot.JVal)),
        (lookupA fields "lastSyncedAt" = none ∨
         lookupA fields "todos" = none ∨
         lookupA fields "serverIdToThingsId" = none) →
        Snapshot.loadLocalState n (some (.jobj fields)) =
          .error "State file is corrupted (missing fields).") ∧
      (∀ (n : String) (fields : List (String × Snapshot.JVal))
          (ls : String) (todosFields : List (String × Snapshot.JVal))
          (st : Snapshot.LoadedState),
        lookupA fields "lastSyncedAt" = some (.jstr ls) →
        lookupA fields "todos" = some (.jobj todosFields) →
        Snapshot.loadLocalState n (some (.jobj fields)) = .ok st →
        st.lastSyncedAt = ls ∧
        st.todos = todosFields.map
          (fun p => (p.1, Snapshot.migrateRecord ls p.1 p.2))) ∧
      (∀ (ls tid : String) (rfs : List (String × Snapshot.JVal)),
        ¬ Snapshot.jTruthy (lookupA rfs "editedAt") →
        (Snapshot.jGet (Snapshot.migrateRecord ls tid (.jobj rfs)) "editedAt" =
            some (.jstr ls)) ∧
        (lookupA rfs "title" = none →
          Snapshot.jGet (Snapshot.migrateRecord ls tid (.jobj rfs)) "title" =
            some (.jstr "")) ∧
        (lookupA rfs "notes" = none →
          Snapshot.jGet (Snapshot.migrateRecord ls tid (.jobj rfs)) "notes" =
            some (.jstr "")) ∧
        (lookupA rfs "dueDate" = none →
          Snapshot.jGet (Snapshot.migrateRecord ls tid (.jobj rfs)) "dueDate" =
            some .jnull) ∧
        (lookupA rfs "tags" = none →
          Snapshot.jGet (Snapshot.migrateRecord ls tid (.jobj rfs)) "tags" =
            some (.jarr [])) ∧
        (lookupA rfs "status" = none →
          Snapshot.jGet (Snapshot.migrateRecord ls tid (.jobj rfs)) "status" =
            some (.jstr "open")) ∧
        (lookupA rfs "position" = none →
          Snapshot.jGet (Snapshot.migrateRecord ls tid (.jobj rfs)) "position" =
            some (.jnum (.finite 0)))) ∧
      (∀ (ls tid : String) (rfs : List (String × Snapshot.JVal)),
        Snapshot.jTruthy (lookupA rfs "editedAt") →
        lookupA rfs "position" = none →
        Snapshot.migrateRecord ls tid (.jobj rfs) =
          .jobj (setA rfs "position" (.jnum (.finite 0)))) := by
  have hfind : ∀ (rfs : List (String × Snapshot.JVal)) (k : String),
      Option.map (fun p => p.2) (List.find? (fun p => decide (p.1 = k)) rfs) =
        lookupA rfs k := fun _ _ => rfl
  refine ⟨?_, ?_, ?_, ?_, ?_, ?_⟩
  · intro n
    rfl
  · intro n v hv
    simp [Snapshot.loadLocalState, hv]
  · intro n fields hmiss
    rcases hmiss with h | h | h
    · simp [Snapshot.loadLocalState, Snapshot.objLike, Snapshot.jGet, h,
        Snapshot.strFieldTruthy]
    · simp only [Snapshot.loadLocalState, Snapshot.objLike, Snapshot.jGet, h]
      simp [Snapshot.strFieldTruthy]
    · simp only [Snapshot.loadLocalState, Snapshot.objLike, Snapshot.jGet, h]
      simp [Snapshot.strFieldTruthy]
  · intro n fields ls todosFields st hls htodos hok
    by_cases hls0 : ls = ""
    · exfalso
      simp [Snapshot.loadLocalState, Snapshot.objLike, Snapshot.jGet, hls,
        htodos, Snapshot.strFieldTruthy, hls0] at hok
    · cases hmapf : lookupA fields "serverIdToThingsId" with
      | none =>
        exfalso
        simp [Snapshot.loadLocalState, Snapshot.objLike, Snapshot.jGet, hls,
          htodos, hmapf, Snapshot.strFieldTruthy] at hok
      | some mv =>
        cases hml : Snapshot.objLike mv with
        | false =>
          exfalso
          simp [Snapshot.loadLocalState, Snapshot.objLike, Snapshot.jGet, hls,
            htodos, hmapf, Snapshot.strFieldTruthy] at hok
          cases mv <;> simp_all [Snapshot.objLike]
        | true =>
          by_cases hdup : Snapshot.mappingValuesDup (Snapshot.entriesOf mv) = true
          · exfalso
            simp [Snapshot.loadLocalState, Snapshot.objLike, Snapshot.jGet, hls,
              htodos, hmapf, Snapshot.strFieldTruthy, hls0, hdup] at hok
            cases mv <;> simp_all [Snapshot.objLike, Snapshot.entriesOf]
          · cases mv with
            | jarr xs =>
              simp only [Snapshot.loadLocalState, Snapshot.objLike,
                Snapshot.jGet, hls, htodos, hmapf, Snapshot.strFieldTruthy,
                hls0, Snapshot.entriesOf, if_true, ite_true, Option.getD_some,
                Option.isSome_some, ne_eq, not_false_eq_true,
                Bool.and_self, not_true_eq_false, Bool.false_eq_true, if_false,
                and_true, and_self] at hok
              rw [if_neg (by simp [Snapshot.strFieldTruthy, hls0])] at hok
              rw [if_neg (by simpa [Snapshot.entriesOf] using hdup)] at hok
              simp only [Except.ok.injEq] at hok
              rw [← hok]
              exact ⟨rfl, rfl⟩
            | jobj fs2 =>
              simp only [Snapshot.loadLocalState, Snapshot.objLike,
                Snapshot.jGet, hls, htodos, hmapf, Snapshot.strFieldTruthy,
                hls0, Snapshot.entriesOf, if_true, ite_true, Option.getD_some,
                Option.isSome_some, ne_eq, not_false_eq_true,
                Bool.and_self, not_true_eq_false, Bool.false_eq_true, if_false,
                and_true, and_self] at hok
              rw [if_neg (by simp [Snapshot.strFieldTruthy, hls0])] at hok
              rw [if_neg (by simpa [Snapshot.entriesOf] using hdup)] at hok
              simp only [Except.ok.injEq] at hok
              rw [← hok]
              exact ⟨rfl, rfl⟩
            | jnull => simp [Snapshot.objLike] at hml
            | jbool b => simp [Snapshot.objLike] at hml
            | jnum n2 => simp [Snapshot.objLike] at hml
            | jstr s2 => simp [Snapshot.objLike] at hml
  · intro ls tid rfs he
    have heb : Snapshot.jTruthy (lookupA rfs "editedAt") = false := by
      cases hcase : Snapshot.jTruthy (lookupA rfs "editedAt") with
      | false => rfl
      | true => exact absurd hcase he
    rw [migrateRecord_v1 ls tid rfs heb]
    refine ⟨?_, ?_, ?_, ?_, ?_, ?_, ?_⟩
    · simp [Snapshot.jGet, lookupA]
    · intro h
      have h2 : Option.map (fun p => p.2)
          (List.find? (fun p => decide (p.1 = "title")) rfs) = none := h
      simp [Snapshot.jGet, lookupA, h, h2, Snapshot.jOr, Snapshot.jTruthy]
    · intro h
      have h2 : Option.map (fun p => p.2)
          (List.find? (fun p => decide (p.1 = "notes")) rfs) = none := h
      simp [Snapshot.jGet, lookupA, h, h2, Snapshot.jOr, Snapshot.jTruthy]
    · intro h
      have h2 : Option.map (fun p => p.2)
          (List.find? (fun p => decide (p.1 = "dueDate")) rfs) = none := h
      simp [Snapshot.jGet, lookupA, h, h2, Snapshot.jNullish]
    · intro h
      have h2 : Option.map (fun p => p.2)
          (List.find? (fun p => decide (p.1 = "tags")) rfs) = none := h
      simp [Snapshot.jGet, lookupA, h, h2]
    · intro h
      have h2 : Option.map (fun p => p.2)
          (List.find? (fun p => decide (p.1 = "status")) rfs) = none := h
      simp [Snapshot.jGet, lookupA, h, h2, Snapshot.jOr, Snapshot.jTruthy]
    · intro h
      have h2 : Option.map (fun p => p.2)
          (List.find? (fun p => decide (p.1 = "position")) rfs) = none := h
      simp [Snapshot.jGet, lookupA, h, h2]
  · intro ls tid rfs he hpos
    simp [Snapshot.migrateRecord, Snapshot.jGet, he, hpos, Snapshot.objSetPosition]

/-- Witness for C9: a v1-style record without `editedAt` gets all
defaults, and a missing required field aborts the load. -/
theorem C9_snapshot_parse_witness :
    Snapshot.loadLocalState "NOW" none =
      .error "State file is corrupted (invalid JSON)." ∧
    Snapshot.loadLocalState "NOW"
      (some (.jobj [("todos", .jobj []), ("serverIdToThingsId", .jobj [])])) =
      .error "State file is corrupted (missing fields)." ∧
    Snapshot.jGet (Snapshot.migrateRecord "T0" "L" (.jobj [("title", .jstr "hello")]))
      "editedAt" = some (.jstr "T0") ∧
    Snapshot.jGet (Snapshot.migrateRecord "T0" "L" (.jobj [("title", .jstr "hello")]))
      "tags" = some (.jarr []) := by
  refine ⟨C9_snapshot_parse.1 "NOW", ?_, ?_, ?_⟩
  · exact C9_snapshot_parse.2.2.1 "NOW" _ (Or.inl rfl)
  · exact (C9_snapshot_parse.2.2.2.2.1 "T0" "L" [("title", .jstr "hello")]
      (by simp [lookupA, Snapshot.jTruthy])).1
  · exact (C9_snapshot_parse.2.2.2.2.1 "T0" "L" [("title", .jstr "hello")]
      (by simp [lookupA, Snapshot.jTruthy])).2.2.2.2.1 (by simp [lookupA])

/-! ## Frame lemmas for the sync cycle -/

theorem detectOne_frame (now : Int) (pm : List (String × Int))
    (acc : Client.LocalState × List String) (e : String × Client.ThingsTodo) :
    ((Client.detectOne now pm acc e).1).lastSyncedAt = (acc.1).lastSyncedAt ∧
    ((Client.detectOne now pm acc e).1).serverIdToThingsId = (acc.1).serverIdToThingsId := by
  simp only [Client.detectOne]
  cases lookupA acc.1.todos e.1 with
  | none => simp
  | some prev =>
    by_cases h : Client.hasChanged prev e.2 ((lookupA pm e.1).getD 0) = true
    · simp [h]
    · simp [h]

theorem foldl_detectOne_frame (now : Int) (pm : List (String × Int))
    (l : List (String × Client.ThingsTodo)) :
    ∀ acc : Client.LocalState × List String,
      ((l.foldl (Client.detectOne now pm) acc).1).lastSyncedAt = (acc.1).lastSyncedAt ∧
      ((l.foldl (Client.detectOne now pm) acc).1).serverIdToThingsId =
        (acc.1).serverIdToThingsId := by
  induction l with
  | nil => intro acc; exact ⟨rfl, rfl⟩
  | cons e rest ih =>
    intro acc
    simp only [List.foldl_cons]
    have h1 := detectOne_frame now pm acc e
    have h2 := ih (Client.detectOne now pm acc e)
    exact ⟨h2.1.trans h1.1, h2.2.trans h1.2⟩

theorem detectGoneOne_frame (now : Int) (cm : List (String × Client.ThingsTodo))
    (s : Client.LocalState) (tid : String) :
    (Client.detectGoneOne now cm s tid).lastSyncedAt = s.lastSyncedAt ∧
    (Client.detectGoneOne now cm s tid).serverIdToThingsId = s.serverIdToThingsId := by
  simp only [Client.detectGoneOne]
  by_cases h : (lookupA cm tid).isSome = true
  · simp [h]
  · simp only [h, if_false, Bool.false_eq_true]
    cases hs : (s.serverIdToThingsId.find? (fun p => p.2 = tid)).map (fun p => p.1) with
    | none => simp
    | some sid =>
      by_cases h2 : sid = ""
      · simp [h2]
      · by_cases h3 : (lookupA s.dirty.deleted sid).isSome = true
        · simp [h2, h3]
        · simp [h2, h3]

theorem foldl_detectGoneOne_frame (now : Int) (cm : List (String × Client.ThingsTodo))
    (l : List String) :
    ∀ s : Client.LocalState,
      ((l.foldl (Client.detectGoneOne now cm) s)).lastSyncedAt = s.lastSyncedAt ∧
      ((l.foldl (Client.detectGoneOne now cm) s)).serverIdToThingsId =
        s.serverIdToThingsId := by
  induction l with
  | nil => intro s; exact ⟨rfl, rfl⟩
  | cons tid rest ih =>
    intro s
    simp only [List.foldl_cons]
    have h1 := detectGoneOne_frame now cm s tid
    have h2 := ih (Client.detectGoneOne now cm s tid)
    exact ⟨h2.1.trans h1.1, h2.2.trans h1.2⟩

theorem detectChanges_frame (now : Int) (l : List Client.ThingsTodo)
    (s : Client.LocalState) :
    (Client.detectChanges now l s).lastSyncedAt = s.lastSyncedAt ∧
    (Client.detectChanges now l s).serverIdToThingsId = s.serverIdToThingsId := by
  simp only [Client.detectChanges]
  set pm := Client.jsMapOfList (l.enum.map (fun p => (p.2.thingsId, (p.1 : Int)))) with hpm
  set cm := Client.jsMapOfList (l.map (fun t => (t.thingsId, t))) with hcm
  set acc1 := cm.foldl (Client.detectOne now pm) (s, Client.setOfList s.dirty.upserted) with hacc1
  have h1 := foldl_detectOne_frame now pm cm (s, Client.setOfList s.dirty.upserted)
  rw [← hacc1] at h1
  set keys := acc1.1.todos.map (fun p => p.1) with hkeys
  have h2 := foldl_detectGoneOne_frame now cm keys acc1.1
  exact ⟨h2.1.trans h1.1, h2.2.trans h1.2⟩

theorem foldl_state_frame {β γ : Type}
    (f : (Client.LocalState × β) → γ → (Client.LocalState × β))
    (hf : ∀ acc e, ((f acc e).1).lastSyncedAt = (acc.1).lastSyncedAt ∧
      ((f acc e).1).serverIdToThingsId = (acc.1).serverIdToThingsId ∧
      ((f acc e).1).todos = (acc.1).todos) :
    ∀ (l : List γ) (acc : Client.LocalState × β),
      ((l.foldl f acc).1).lastSyncedAt = (acc.1).lastSyncedAt ∧
      ((l.foldl f acc).1).serverIdToThingsId = (acc.1).serverIdToThingsId ∧
      ((l.foldl f acc).1).todos = (acc.1).todos := by
  intro l
  induction l with
  | nil => intro acc; exact ⟨rfl, rfl, rfl⟩
  | cons e rest ih =>
    intro acc
    simp only [List.foldl_cons]
    have h1 := hf acc e
    have h2 := ih (f acc e)
    exact ⟨h2.1.trans h1.1, h2.2.1.trans h1.2.1, h2.2.2.trans h1.2.2⟩

theorem buildDeletes_frame (cm : List (String × Client.ThingsTodo))
    (s : Client.LocalState) :
    ((Client.buildDeletes cm s).1).lastSyncedAt = s.lastSyncedAt ∧
    ((Client.buildDeletes cm s).1).serverIdToThingsId = s.serverIdToThingsId ∧
    ((Client.buildDeletes cm s).1).todos = s.todos := by
  simp only [Client.buildDeletes]
  refine foldl_state_frame _ ?_ s.dirty.deleted (s, [])
  intro acc e
  obtain ⟨s0, del0⟩ := acc
  cases hl : lookupA s0.serverIdToThingsId e.1 with
  | none => simp [hl]
  | some thingsId =>
    by_cases hc : thingsId ≠ "" ∧ (lookupA cm thingsId).isSome
    · simp [hl, hc]
    · simp [hl, hc]

theorem setMapping_ok_frame (s : Client.LocalState) (sid tid : String)
    (s1 : Client.LocalState) (h : Client.setMapping s sid tid = .ok s1) :
    s1.lastSyncedAt = s.lastSyncedAt ∧ s1.todos = s.todos ∧ s1.dirty = s.dirty ∧
    s1.serverIdToThingsId = setA s.serverIdToThingsId sid tid := by
  simp only [Client.setMapping] at h
  split at h
  · cases h
  · split at h
    · cases h
    · simp only [Except.ok.injEq] at h
      rw [← h]
      exact ⟨rfl, rfl, rfl, rfl⟩

theorem processPushMappings_frame (resp : Client.PushResponse) :
    ∀ (s : Client.LocalState),
      ((Client.processPushMappings s resp).1).lastSyncedAt = s.lastSyncedAt ∧
      ((Client.processPushMappings s resp).1).todos = s.todos := by
  intro s
  simp only [Client.processPushMappings]
  cases resp.mappings with
  | none => exact ⟨rfl, rfl⟩
  | some mappings =>
    suffices h : ∀ (l : List Client.PushMapping) (acc : Client.LocalState × Option String),
        ((l.foldl (fun acc m =>
          match acc with
          | (s, some e) => (s, some e)
          | (s, none) =>
            if ¬ Server.strTruthy m.clientId then (s, none)
            else
              match Client.setMapping s m.serverId (m.clientId.getD "") with
              | .ok s1 => (s1, none)
              | .error e => (s, some e)) acc).1).lastSyncedAt = (acc.1).lastSyncedAt ∧
        ((l.foldl (fun acc m =>
          match acc with
          | (s, some e) => (s, some e)
          | (s, none) =>
            if ¬ Server.strTruthy m.clientId then (s, none)
            else
              match Client.setMapping s m.serverId (m.clientId.getD "") with
              | .ok s1 => (s1, none)
              | .error e => (s, some e)) acc).1).todos = (acc.1).todos by
      exact h mappings (s, none)
    intro l
    induction l with
    | nil => intro acc; exact ⟨rfl, rfl⟩
    | cons m rest ih =>
      intro acc
      simp only [List.foldl_cons]
      obtain ⟨s0, err0⟩ := acc
      cases err0 with
      | some e => exact ih (s0, some e)
      | none =>
        by_cases hc : ¬ Server.strTruthy m.clientId = true
        · simp only [hc, if_pos]
          exact ih (s0, none)
        · simp only [hc, if_neg, if_false]
          cases hsm : Client.setMapping s0 m.serverId (m.clientId.getD "") with
          | ok s1 =>
            have hf := setMapping_ok_frame s0 m.serverId (m.clientId.getD "") s1 hsm
            have h2 := ih (s1, none)
            simp only [hsm]
            exact ⟨h2.1.trans hf.1, h2.2.trans hf.2.1⟩
          | error e =>
            simp only [hsm]
            exact ih (s0, some e)

theorem applyRemoteUpserts_frame (steps : Nat → Client.HostStep) :
    ∀ (remotes : List Client.Todo) (i : Nat) (s : Client.LocalState)
      (curr : List (String × Client.ThingsTodo)) (applied : Nat),
      ((Client.applyRemoteUpserts steps i s curr applied remotes).1).lastSyncedAt =
        s.lastSyncedAt := by
  intro remotes
  induction remotes with
  | nil => intro i s curr applied; rfl
  | cons remote rest ih =>
    intro i s curr applied
    simp only [Client.applyRemoteUpserts]
    cases hlt : (match lookupA s.serverIdToThingsId remote.id with
      | some tid => if tid = "" then none else lookupA curr tid
      | none => none : Option Client.ThingsTodo) with
    | none =>
      cases hstep : steps i with
      | error e => simp [hlt, hstep]
      | ok found =>
        cases found with
        | some newTodo =>
          cases hsm : Client.setMapping s remote.id newTodo.thingsId with
          | error e => simp [hlt, hstep, hsm]
          | ok s1 =>
            have hf := setMapping_ok_frame s remote.id newTodo.thingsId s1 hsm
            simp only [hlt, hstep, hsm]
            exact (ih (i + 1) _ _ _).trans hf.1
        | none =>
          simp only [hlt, hstep]
          exact ih (i + 1) s curr (applied + 1)
    | some localTodo =>
      by_cases happ : (match (match lookupA s.serverIdToThingsId remote.id with
          | some tid => if tid = "" then none else lookupA s.todos tid
          | none => none : Option Client.LocalTodoState) with
        | none => true
        | some lst => Client.compareIso remote.editedAt lst.editedAt ≥ 0) = true
      · cases hstep : steps i with
        | error e => simp [hlt, happ, hstep]
        | ok found =>
          simp only [hlt, happ, hstep, if_pos]
          exact ih (i + 1) _ curr (applied + 1)
      · simp only [hlt, happ, if_neg, Bool.false_eq_true, if_false]
        exact ih (i + 1) s curr applied

theorem applyRemoteDeleteOne_lastSyncedAt (now : Int)
    (curr : List (String × Client.ThingsTodo))
    (acc : Client.LocalState × List Client.ConflictEntry) (d : Client.RemoteDeletion) :
    ((Client.applyRemoteDeleteOne now curr acc d).1).lastSyncedAt = (acc.1).lastSyncedAt := by
  simp only [Client.applyRemoteDeleteOne]
  cases hl : lookupA acc.1.serverIdToThingsId d.serverId with
  | none => rfl
  | some ltid =>
    by_cases h1 : ltid = ""
    · simp [h1]
    · simp only [h1, if_neg, if_false]
      by_cases h2 : ¬ (lookupA curr ltid).isSome = true ∧ (lookupA acc.1.todos ltid).isNone = true
      · simp [h2]
      · simp only [h2, if_neg, if_false]
        cases h3 : lookupA acc.1.todos ltid with
        | none => simp
        | some lst =>
          by_cases h4 : Client.compareIso d.deletedAt lst.editedAt < 0
          · simp [h4]
          · simp [h4]

theorem applyRemoteDeletes_lastSyncedAt (now : Int)
    (curr : List (String × Client.ThingsTodo)) (ds : List Client.RemoteDeletion) :
    ∀ (acc : Client.LocalState × List Client.ConflictEntry),
      ((ds.foldl (Client.applyRemoteDeleteOne now curr) acc).1).lastSyncedAt =
        (acc.1).lastSyncedAt := by
  induction ds with
  | nil => intro acc; rfl
  | cons d rest ih =>
    intro acc
    simp only [List.foldl_cons]
    exact (ih (Client.applyRemoteDeleteOne now curr acc d)).trans
      (applyRemoteDeleteOne_lastSyncedAt now curr acc d)

theorem applyRemoteChanges_lastSyncedAt (now : Int) (steps : Nat → Client.HostStep)
    (s : Client.LocalState) (curr : List (String × Client.ThingsTodo))
    (delta : Client.Delta) :
    ((Client.applyRemoteChanges now steps s curr delta).1).lastSyncedAt =
      s.lastSyncedAt := by
  simp only [Client.applyRemoteChanges]
  cases hup : Client.applyRemoteUpserts steps 0 s curr 0 delta.upserted with
  | mk s1 rest =>
    obtain ⟨curr1, applied, err⟩ := rest
    have h1 : s1.lastSyncedAt = s.lastSyncedAt := by
      have := applyRemoteUpserts_frame steps delta.upserted 0 s curr 0
      rw [hup] at this
      exact this
    cases err with
    | some e => simpa using h1
    | none =>
      simp only [Client.applyRemoteDeletes]
      exact (applyRemoteDeletes_lastSyncedAt now curr1 delta.deleted (s1, [])).trans h1

theorem pullPhase_error_lastSyncedAt (env : Client.Env) (s : Client.LocalState)
    (ct : List Client.ThingsTodo) (cm : List (String × Client.ThingsTodo))
    (pushed cc : Nat) (e : Client.SyncErr)
    (herr : (Client.pullPhase env s ct cm pushed cc).1 = .error e) :
    ((Client.pullPhase env s ct cm pushed cc).2).lastSyncedAt = s.lastSyncedAt := by
  simp only [Client.pullPhase] at herr ⊢
  cases hd : Client.getServerDelta env s ct with
  | error u => simp [hd]
  | ok delta =>
    simp only [hd] at herr ⊢
    cases hac : Client.applyRemoteChanges env.now env.hostSteps s cm delta with
    | mk s1 rest =>
      obtain ⟨applied, conflicts, err⟩ := rest
      have h1 : s1.lastSyncedAt = s.lastSyncedAt := by
        have := applyRemoteChanges_lastSyncedAt env.now env.hostSteps s cm delta
        rw [hac] at this
        exact this
      cases err with
      | some e2 => simpa using h1
      | none => simp [hac] at herr

/-- C5 (amended): A sync cycle that fails after the snapshot was
loaded still writes the snapshot file — the catch handler persists the
in-memory state with whatever in-cycle mutations had accumulated — but
`lastSyncedAt` is never advanced by a failed cycle: the state written on
the error path carries the loaded `lastSyncedAt` unchanged, since the
cursor is only assigned after a successful pull-and-apply, immediately
before the end-of-cycle persist. -/
theorem C5_failed_cycle_lastSyncedAt
    (env : Client.Env) (s : Client.LocalState) (e : Client.SyncErr)
    (herr : (Client.runSyncFromLoaded env s).1 = .error e) :
    ((Client.runSyncFromLoaded env s).2).lastSyncedAt = s.lastSyncedAt := by
  simp only [Client.runSyncFromLoaded] at herr ⊢
  cases hh : env.hostTodos with
  | error u => simp [hh]
  | ok currentTodos =>
    simp only [hh] at herr ⊢
    have hs1 := detectChanges_frame env.now currentTodos s
    cases hbd : Client.buildDeletes
        (Client.jsMapOfList (currentTodos.map (fun t => (t.thingsId, t))))
        (Client.detectChanges env.now currentTodos s) with
    | mk s2 pushDeletes =>
      have hs2 : s2.lastSyncedAt = s.lastSyncedAt := by
        have := buildDeletes_frame
          (Client.jsMapOfList (currentTodos.map (fun t => (t.thingsId, t))))
          (Client.detectChanges env.now currentTodos s)
        rw [hbd] at this
        exact this.1.trans hs1.1
      simp only [hbd] at herr ⊢
      by_cases hempty : ((Client.buildUpserts
          (Client.jsMapOfList (currentTodos.map (fun t => (t.thingsId, t))))
          (Client.detectChanges env.now currentTodos s)).isEmpty ∧
          pushDeletes.isEmpty)
      · rw [if_pos hempty] at herr ⊢
        exact (pullPhase_error_lastSyncedAt env s2 currentTodos _ 0 0 e herr).trans hs2
      · rw [if_neg hempty] at herr ⊢
        cases hp : env.pushResp with
        | error u => simp [hp, hs2]
        | ok resp =>
          simp only [hp] at herr ⊢
          cases hpm : Client.processPushMappings s2 resp with
          | mk s3 errOpt =>
            have hs3 : s3.lastSyncedAt = s2.lastSyncedAt := by
              have := processPushMappings_frame resp s2
              rw [hpm] at this
              exact this.1
            cases errOpt with
            | some msg =>
              simp only [hpm] at herr ⊢
              exact hs3.trans hs2
            | none =>
              simp only [hpm] at herr ⊢
              exact (pullPhase_error_lastSyncedAt env _ currentTodos _ _ _ e herr).trans
                (hs3.trans hs2)

/-- The Things readout item of the concrete failing-cycle scenario. -/
def failTodo : Client.ThingsTodo :=
  { thingsId := "L"
    title := "new item"
    notes := ""
    dueDate := none
    tags := []
    status := .«open» }

/-- The loaded snapshot of the failing-cycle scenario: empty, with cursor
instant 10. -/
def failState : Client.LocalState :=
  { lastSyncedAt := 10
    todos := []
    serverIdToThingsId := []
    dirty := { upserted := [], deleted := [] } }

/-- The environment of the failing-cycle scenario: the Things readout
returns one new item, and the push request fails (network error). -/
def failEnv : Client.Env :=
  { now := 77
    hostTodos := .ok [failTodo]
    pushResp := .error ()
    stateResp := .error ()
    deltaResp := .error ()
    hostSteps := fun _ => .ok none }

/-- C5 (counterexample): A cycle that reads one new local item and
then fails at the push still writes the snapshot: the state persisted by
the catch handler differs from the loaded one (the detected item and its
dirty flag were persisted), contradicting the claim that the snapshot
file is left unchanged on a failed cycle.  Its `lastSyncedAt`, however,
is unchanged. -/
theorem C5_failed_cycle_persists_counterexample :
    (Client.runSyncFromLoaded failEnv failState).1 = .error .push ∧
    (Client.runSyncFromLoaded failEnv failState).2 ≠ failState ∧
    (Client.runSyncFromLoaded failEnv failState).2.lastSyncedAt =
      failState.lastSyncedAt := by
  refine ⟨rfl, ?_, rfl⟩
  decide

/-- Witness for the amended C5 at the concrete failing cycle. -/
theorem C5_failed_cycle_lastSyncedAt_witness :
    ((Client.runSyncFromLoaded failEnv failState).2).lastSyncedAt =
      failState.lastSyncedAt :=
  C5_failed_cycle_lastSyncedAt failEnv failState .push rfl

/-! ## C7: registry bijection -/

/-- The registry is a bijection: no server id and no local id appears
twice. -/
def MappingOk (m : List (String × String)) : Prop :=
  m.Pairwise (fun p q => p.1 ≠ q.1 ∧ p.2 ≠ q.2)

instance (m : List (String × String)) : Decidable (MappingOk m) := by
  unfold MappingOk
  exact List.instDecidablePairwise m

theorem mappingOk_setA (m : List (String × String)) (sid tid : String)
    (hok : MappingOk m) (hv : ∀ p ∈ m, p.2 = tid → p.1 = sid) :
    MappingOk (setA m sid tid) := by
  unfold MappingOk at hok ⊢
  by_cases h : m.any (fun p => p.1 = sid)
  · simp only [setA, h, if_pos]
    rw [List.pairwise_map]
    refine hok.imp_of_mem ?_
    intro a b ha hb hab
    by_cases ha1 : a.1 = sid
    · by_cases hb1 : b.1 = sid
      · exact absurd (ha1.trans hb1.symm) hab.1
      · simp only [ha1, if_pos, hb1, if_neg, if_false]
        refine ⟨fun hc => hb1 hc.symm, fun hc => ?_⟩
        exact hb1 (hv b hb hc.symm)
    · by_cases hb1 : b.1 = sid
      · simp only [ha1, if_neg, hb1, if_pos, if_false]
        refine ⟨fun hc => ha1 hc, fun hc => ?_⟩
        exact ha1 (hv a ha hc)
      · simp only [ha1, hb1, if_neg, if_false]
        exact hab
  · simp only [setA, h, if_neg, Bool.false_eq_true, if_false]
    rw [List.pairwise_append]
    refine ⟨hok, List.pairwise_singleton _ _, ?_⟩
    intro a ha b hb
    simp only [List.mem_singleton] at hb
    rw [hb]
    have ha1 : ¬ a.1 = sid := by
      intro hc
      exact absurd (List.any_eq_true.mpr ⟨a, ha, by simp [hc]⟩) h
    exact ⟨ha1, fun hc => ha1 (hv a ha hc)⟩

theorem mappingOk_eraseA (m : List (String × String)) (k : String)
    (hok : MappingOk m) : MappingOk (eraseA m k) :=
  hok.sublist (List.filter_sublist m)

theorem setMapping_ok_mappingOk (s : Client.LocalState) (sid tid : String)
    (s1 : Client.LocalState) (h : Client.setMapping s sid tid = .ok s1)
    (hok : MappingOk s.serverIdToThingsId) : MappingOk s1.serverIdToThingsId := by
  simp only [Client.setMapping] at h
  split at h
  · cases h
  · split at h
    · cases h
    · rename_i hany
      simp only [Except.ok.injEq] at h
      rw [← h]
      refine mappingOk_setA _ sid tid hok ?_
      intro p hp hptid
      by_contra hne
      exact hany (List.any_eq_true.mpr ⟨p, hp, by simp [hptid, hne]⟩)

theorem processPushMappings_mappingOk (resp : Client.PushResponse)
    (s : Client.LocalState) (hok : MappingOk s.serverIdToThingsId) :
    MappingOk ((Client.processPushMappings s resp).1).serverIdToThingsId := by
  simp only [Client.processPushMappings]
  cases resp.mappings with
  | none => exact hok
  | some mappings =>
    suffices h : ∀ (l : List Client.PushMapping) (acc : Client.LocalState × Option String),
        MappingOk (acc.1).serverIdToThingsId →
        MappingOk ((l.foldl (fun acc m =>
          match acc with
          | (s, some e) => (s, some e)
          | (s, none) =>
            if ¬ Server.strTruthy m.clientId then (s, none)
            else
              match Client.setMapping s m.serverId (m.clientId.getD "") with
              | .ok s1 => (s1, none)
              | .error e => (s, some e)) acc).1).serverIdToThingsId by
      exact h mappings (s, none) hok
    intro l
    induction l with
    | nil => intro acc hacc; exact hacc
    | cons m rest ih =>
      intro acc hacc
      simp only [List.foldl_cons]
      obtain ⟨s0, err0⟩ := acc
      cases err0 with
      | some e => exact ih (s0, some e) hacc
      | none =>
        by_cases hc : ¬ Server.strTruthy m.clientId = true
        · simp only [hc, if_pos]
          exact ih (s0, none) hacc
        · simp only [hc, if_neg, if_false]
          cases hsm : Client.setMapping s0 m.serverId (m.clientId.getD "") with
          | ok s1 =>
            simp only [hsm]
            exact ih (s1, none) (setMapping_ok_mappingOk s0 _ _ s1 hsm hacc)
          | error e =>
            simp only [hsm]
            exact ih (s0, some e) hacc

theorem applyRemoteUpserts_mappingOk (steps : Nat → Client.HostStep) :
    ∀ (remotes : List Client.Todo) (i : Nat) (s : Client.LocalState)
      (curr : List (String × Client.ThingsTodo)) (applied : Nat),
      MappingOk s.serverIdToThingsId →
      MappingOk ((Client.applyRemoteUpserts steps i s curr applied remotes).1).serverIdToThingsId := by
  intro remotes
  induction remotes with
  | nil => intro i s curr applied hok; exact hok
  | cons remote rest ih =>
    intro i s curr applied hok
    simp only [Client.applyRemoteUpserts]
    cases hlt : (match lookupA s.serverIdToThingsId remote.id with
      | some tid => if tid = "" then none else lookupA curr tid
      | none => none : Option Client.ThingsTodo) with
    | none =>
      cases hstep : steps i with
      | error e => simpa using hok
      | ok found =>
        cases found with
        | some newTodo =>
          cases hsm : Client.setMapping s remote.id newTodo.thingsId with
          | error e => simpa [hsm] using hok
          | ok s1 =>
            simp only [hsm]
            exact ih (i + 1) _ _ _
              (setMapping_ok_mappingOk s _ _ s1 hsm hok)
        | none =>
          exact ih (i + 1) s curr (applied + 1) hok
    | some localTodo =>
      by_cases happ : (match (match lookupA s.serverIdToThingsId remote.id with
          | some tid => if tid = "" then none else lookupA s.todos tid
          | none => none : Option Client.LocalTodoState) with
        | none => true
        | some lst => Client.compareIso remote.editedAt lst.editedAt ≥ 0) = true
      · cases hstep : steps i with
        | error e => simpa [happ, hstep] using hok
        | ok found =>
          simp only [happ, hstep, if_pos]
          exact ih (i + 1) _ curr (applied + 1) hok
      · simp only [happ, if_neg, Bool.false_eq_true, if_false]
        exact ih (i + 1) s curr applied hok

theorem applyRemoteDeleteOne_mappingOk (now : Int)
    (curr : List (String × Client.ThingsTodo))
    (acc : Client.LocalState × List Client.ConflictEntry) (d : Client.RemoteDeletion)
    (hok : MappingOk (acc.1).serverIdToThingsId) :
    MappingOk ((Client.applyRemoteDeleteOne now curr acc d).1).serverIdToThingsId := by
  simp only [Client.applyRemoteDeleteOne]
  cases hl : lookupA acc.1.serverIdToThingsId d.serverId with
  | none => exact hok
  | some ltid =>
    by_cases h1 : ltid = ""
    · simpa [h1] using hok
    · simp only [h1, if_neg, if_false]
      by_cases h2 : ¬ (lookupA curr ltid).isSome = true ∧ (lookupA acc.1.todos ltid).isNone = true
      · simp only [h2, if_pos]
        exact mappingOk_eraseA _ _ hok
      · simp only [h2, if_neg, if_false]
        cases h3 : lookupA acc.1.todos ltid with
        | none => exact hok
        | some lst =>
          by_cases h4 : Client.compareIso d.deletedAt lst.editedAt < 0
          · simpa [h4] using hok
          · simpa [h4] using hok

theorem applyRemoteDeletes_mappingOk (now : Int)
    (curr : List (String × Client.ThingsTodo)) (ds : List Client.RemoteDeletion) :
    ∀ (acc : Client.LocalState × List Client.ConflictEntry),
      MappingOk (acc.1).serverIdToThingsId →
      MappingOk (((ds.foldl (Client.applyRemoteDeleteOne now curr) acc)).1).serverIdToThingsId := by
  induction ds with
  | nil => intro acc hok; exact hok
  | cons d rest ih =>
    intro acc hok
    simp only [List.foldl_cons]
    exact ih (Client.applyRemoteDeleteOne now curr acc d)
      (applyRemoteDeleteOne_mappingOk now curr acc d hok)

theorem pullPhase_mappingOk (env : Client.Env) (s : Client.LocalState)
    (ct : List Client.ThingsTodo) (cm : List (String × Client.ThingsTodo))
    (pushed cc : Nat) (hok : MappingOk s.serverIdToThingsId) :
    MappingOk (((Client.pullPhase env s ct cm pushed cc)).2).serverIdToThingsId := by
  simp only [Client.pullPhase]
  cases hd : Client.getServerDelta env s ct with
  | error u => exact hok
  | ok delta =>
    simp only [Client.applyRemoteChanges]
    cases hup : Client.applyRemoteUpserts env.hostSteps 0 s cm 0 delta.upserted with
    | mk s1 rest =>
      obtain ⟨curr1, applied, err⟩ := rest
      have h1 : MappingOk s1.serverIdToThingsId := by
        have := applyRemoteUpserts_mappingOk env.hostSteps delta.upserted 0 s cm 0 hok
        rw [hup] at this
        exact this
      cases err with
      | some e => simpa using h1
      | none =>
        simp only [Client.applyRemoteDeletes]
        exact applyRemoteDeletes_mappingOk env.now curr1 delta.deleted (s1, []) h1

/-- C7: The registry stays a bijection: (a) binding a pair whose
server id already points elsewhere to a still-live record fails with a
duplicate-mapping error; (b) binding a pair whose local id is already
bound to a different server id (in particular to a still-live record)
fails with a duplicate-mapping error; (c) a full sync cycle — including
the state the failed-cycle handler persists — maps an injective registry
(no server id and no local id twice) to an injective registry. -/
theorem C7_registry_bijection
    : (∀ (s : Client.LocalState) (sid tid ex : String),
        lookupA s.serverIdToThingsId sid = some ex → ex ≠ "" → ex ≠ tid →
        (lookupA s.todos ex).isSome →
        ∃ msg, Client.setMapping s sid tid = .error msg) ∧
      (∀ (s : Client.LocalState) (sid tid sid2 : String),
        (sid2, tid) ∈ s.serverIdToThingsId → sid2 ≠ sid →
        (lookupA s.todos tid).isSome →
        ∃ msg, Client.setMapping s sid tid = .error msg) ∧
      (∀ (env : Client.Env) (s : Client.LocalState),
        MappingOk s.serverIdToThingsId →
        MappingOk (((Client.runSyncFromLoaded env s)).2).serverIdToThingsId) := by
  refine ⟨?_, ?_, ?_⟩
  · intro s sid tid ex hsid hne hne2 hlive
    refine ⟨"Duplicate mapping detected for serverId", ?_⟩
    simp [Client.setMapping, hsid, hne, hne2, hlive]
  · intro s sid tid sid2 hmem hne hlive
    simp only [Client.setMapping]
    split
    · exact ⟨_, rfl⟩
    · rw [if_pos (List.any_eq_true.mpr ⟨(sid2, tid), hmem, by simp [hne]⟩)]
      exact ⟨_, rfl⟩
  · intro env s hok
    simp only [Client.runSyncFromLoaded]
    cases hh : env.hostTodos with
    | error u => exact hok
    | ok currentTodos =>
      have hs1 := detectChanges_frame env.now currentTodos s
      have hok1 : MappingOk (Client.detectChanges env.now currentTodos s).serverIdToThingsId := by
        rw [hs1.2]; exact hok
      cases hbd : Client.buildDeletes
          (Client.jsMapOfList (currentTodos.map (fun t => (t.thingsId, t))))
          (Client.detectChanges env.now currentTodos s) with
      | mk s2 pushDeletes =>
        have hok2 : MappingOk s2.serverIdToThingsId := by
          have := buildDeletes_frame
            (Client.jsMapOfList (currentTodos.map (fun t => (t.thingsId, t))))
            (Client.detectChanges env.now currentTodos s)
          rw [hbd] at this
          rw [this.2.1]
          exact hok1
        simp only [hbd]
        by_cases hempty : ((Client.buildUpserts
            (Client.jsMapOfList (currentTodos.map (fun t => (t.thingsId, t))))
            (Client.detectChanges env.now currentTodos s)).isEmpty ∧
            pushDeletes.isEmpty)
        · rw [if_pos hempty]
          exact pullPhase_mappingOk env s2 currentTodos _ 0 0 hok2
        · rw [if_neg hempty]
          cases hp : env.pushResp with
          | error u => exact hok2
          | ok resp =>
            simp only [hp]
            cases hpm : Client.processPushMappings s2 resp with
            | mk s3 errOpt =>
              have hok3 : MappingOk s3.serverIdToThingsId := by
                have := processPushMappings_mappingOk resp s2 hok2
                rw [hpm] at this
                exact this
              cases errOpt with
              | some msg =>
                simp only [hpm]
                exact hok3
              | none =>
                simp only [hpm]
                exact pullPhase_mappingOk env _ currentTodos _ _ _ hok3

/-- The live snapshot record of the bijection scenario. -/
def bijRecord : Client.LocalTodoState :=
  { thingsId := "L"
    title := "a"
    notes := ""
    dueDate := none
    tags := []
    status := .«open»
    position := 0
    editedAt := 20 }

/-- The client state of the concrete bijection scenario: `S ↔ L` bound,
`L` live in the snapshot. -/
def bijState : Client.LocalState :=
  { lastSyncedAt := 10
    todos := [("L", bijRecord)]
    serverIdToThingsId := [("S", "L")]
    dirty := { upserted := [], deleted := [] } }

/-- The matching Things readout item. -/
def bijTodo : Client.ThingsTodo :=
  { thingsId := "L"
    title := "a"
    notes := ""
    dueDate := none
    tags := []
    status := .«open» }

/-- A benign cycle environment for the bijection scenario: the readout
matches the snapshot, nothing to push, empty delta. -/
def bijEnv : Client.Env :=
  { now := 77
    hostTodos := .ok [bijTodo]
    pushResp := .ok { conflicts := [], mappings := none }
    stateResp := .error ()
    deltaResp := .ok { upserted := [], deleted := [], syncedAt := 50 }
    hostSteps := fun _ => .ok none }

/-- Witness for C7: rebinding `S` to a different local id fails, binding a
second server id to `L` fails, and a cycle keeps the registry injective. -/
theorem C7_registry_bijection_witness :
    (∃ msg, Client.setMapping bijState "S" "M" = .error msg) ∧
    (∃ msg, Client.setMapping bijState "S2" "L" = .error msg) ∧
    MappingOk (((Client.runSyncFromLoaded bijEnv bijState)).2).serverIdToThingsId := by
  refine ⟨?_, ?_, ?_⟩
  · exact C7_registry_bijection.1 bijState "S" "M" "L" rfl (by decide) (by decide)
      (by decide)
  · exact C7_registry_bijection.2.1 bijState "S2" "L" "S" (by decide) (by decide)
      (by decide)
  · exact C7_registry_bijection.2.2 bijEnv bijState (by decide)
